import Mathlib

set_option maxHeartbeats 1000000

attribute [local semireducible] Rat.add Rat.mul Rat.inv Rat.sub Rat.ofScientific

/-! Shallow embedding of the GOAD v1.0 genetic-algorithm core:
    `src/goad_v1/ga/genetic_algorithm.py` (class GeneticAlgorithm) and
    `src/goad_v1/utils/torsion_handler.py` (class TorsionHandler).
    Float arithmetic is embedded as exact rational arithmetic; the
    transcendental numpy routines (sqrt, cos, sin, deg2rad) are supplied as
    explicit function parameters, since their pointwise values are external
    to the algorithmic structure under verification.  Python exceptions are
    embedded as `Except` values; numpy arrays held inside genome dicts are
    embedded with explicit reference semantics (a heap of arrays), so that
    the aliasing behaviour of `dict.copy()` and in-place `+=` is captured
    exactly. -/

/-- A 3-component vector, modelling a numpy array of shape (3,). -/
structure Vec3 where
  x : ℚ
  y : ℚ
  z : ℚ
deriving DecidableEq

def Vec3.add (a b : Vec3) : Vec3 := ⟨a.x + b.x, a.y + b.y, a.z + b.z⟩

def Vec3.sub (a b : Vec3) : Vec3 := ⟨a.x - b.x, a.y - b.y, a.z - b.z⟩

instance : Add Vec3 := ⟨Vec3.add⟩

instance : Sub Vec3 := ⟨Vec3.sub⟩

def Vec3.smul (q : ℚ) (v : Vec3) : Vec3 := ⟨q * v.x, q * v.y, q * v.z⟩

/-- Componentwise division by a scalar (numpy broadcast division). -/
def Vec3.divQ (v : Vec3) (q : ℚ) : Vec3 := ⟨v.x / q, v.y / q, v.z / q⟩

def Vec3.zero : Vec3 := ⟨0, 0, 0⟩

/-- Squared Euclidean norm of a 3-vector. -/
def Vec3.norm2 (v : Vec3) : ℚ := v.x * v.x + v.y * v.y + v.z * v.z

/-- A 3x3 matrix in row-major layout, modelling a numpy array of shape (3,3). -/
structure Mat3 where
  a11 : ℚ
  a12 : ℚ
  a13 : ℚ
  a21 : ℚ
  a22 : ℚ
  a23 : ℚ
  a31 : ℚ
  a32 : ℚ
  a33 : ℚ
deriving DecidableEq

def Mat3.mul (A B : Mat3) : Mat3 :=
  ⟨A.a11 * B.a11 + A.a12 * B.a21 + A.a13 * B.a31,
   A.a11 * B.a12 + A.a12 * B.a22 + A.a13 * B.a32,
   A.a11 * B.a13 + A.a12 * B.a23 + A.a13 * B.a33,
   A.a21 * B.a11 + A.a22 * B.a21 + A.a23 * B.a31,
   A.a21 * B.a12 + A.a22 * B.a22 + A.a23 * B.a32,
   A.a21 * B.a13 + A.a22 * B.a23 + A.a23 * B.a33,
   A.a31 * B.a11 + A.a32 * B.a21 + A.a33 * B.a31,
   A.a31 * B.a12 + A.a32 * B.a22 + A.a33 * B.a32,
   A.a31 * B.a13 + A.a32 * B.a23 + A.a33 * B.a33⟩

def Mat3.addM (A B : Mat3) : Mat3 :=
  ⟨A.a11 + B.a11, A.a12 + B.a12, A.a13 + B.a13,
   A.a21 + B.a21, A.a22 + B.a22, A.a23 + B.a23,
   A.a31 + B.a31, A.a32 + B.a32, A.a33 + B.a33⟩

def Mat3.smulM (q : ℚ) (A : Mat3) : Mat3 :=
  ⟨q * A.a11, q * A.a12, q * A.a13,
   q * A.a21, q * A.a22, q * A.a23,
   q * A.a31, q * A.a32, q * A.a33⟩

/-- The identity matrix, modelling `np.eye(3)`. -/
def Mat3.idM : Mat3 := ⟨1, 0, 0, 0, 1, 0, 0, 0, 1⟩

/-- Matrix-vector product.  In the source, positions are rows and the code
    computes `p @ R.T`, which equals `R . p` for each row `p`. -/
def Mat3.mulVec (A : Mat3) (v : Vec3) : Vec3 :=
  ⟨A.a11 * v.x + A.a12 * v.y + A.a13 * v.z,
   A.a21 * v.x + A.a22 * v.y + A.a23 * v.z,
   A.a31 * v.x + A.a32 * v.y + A.a33 * v.z⟩

/-- The transcendental numpy routines used by the source, supplied as
    parameters of the embedding (`np.sqrt`/`np.linalg.norm`, `np.cos`,
    `np.sin`, `np.deg2rad`). -/
structure MathPrims where
  sqrt : ℚ → ℚ
  cos : ℚ → ℚ
  sin : ℚ → ℚ
  deg2rad : ℚ → ℚ

/-- Python-level exceptions that the embedded code can raise. -/
inductive PyErr where
  /-- numpy `matmul` applied to a 0-dimensional (scalar) operand; numpy
      raises (multiplication by scalars is not allowed in `@`). -/
  | matmulScalar : PyErr
  /-- `np.random.choice(n, k, replace=False)` with `k > n`; numpy raises
      ValueError (cannot take a larger sample than population). -/
  | choiceTooBig : PyErr
deriving DecidableEq

/-- A numpy value that is either a 0-d scalar or a 3x3 matrix; used to model
    the `@` operator, whose behaviour depends on operand dimensionality. -/
inductive NpVal where
  | scalar : ℚ → NpVal
  | mat : Mat3 → NpVal

/-- numpy `matmul` (the `@` operator) on the value kinds appearing in the
    source: defined for matrix-matrix operands, raises on any scalar
    operand. -/
def npMatmul : NpVal → NpVal → Except PyErr Mat3
  | .mat A, .mat B => .ok (A.mul B)
  | _, _ => .error .matmulScalar

/-- Embedding of `TorsionHandler._rotation_matrix_axis_angle(axis, angle)`.
    The source builds the skew-symmetric cross-product matrix `K` of `axis`
    and then evaluates the line
    `R = np.eye(3) + sin_a * K + (1 - cos_a) @ (K @ K)`,
    whose last term applies `@` to the scalar `1 - cos_a`. -/
def rotationMatrixAxisAngle (P : MathPrims) (axis : Vec3) (angle : ℚ) :
    Except PyErr Mat3 :=
  let cos_a := P.cos angle
  let sin_a := P.sin angle
  let K : Mat3 := ⟨0, -axis.z, axis.y, axis.z, 0, -axis.x, -axis.y, axis.x, 0⟩
  match npMatmul (.scalar (1 - cos_a)) (.mat (K.mul K)) with
  | .error e => .error e
  | .ok M => .ok ((Mat3.idM.addM (Mat3.smulM sin_a K)).addM M)

/-- The matrix the Rodrigues formula in the source's own docstring promises:
    `R = I + sin(angle) K + (1 - cos(angle)) K^2`. -/
def rodriguesSpec (P : MathPrims) (axis : Vec3) (angle : ℚ) : Mat3 :=
  let K : Mat3 := ⟨0, -axis.z, axis.y, axis.z, 0, -axis.x, -axis.y, axis.x, 0⟩
  (Mat3.idM.addM (Mat3.smulM (P.sin angle) K)).addM
    (Mat3.smulM (1 - P.cos angle) (K.mul K))

/-! ## Torsion model (`TorsionHandler`) -/

/-- Whether atoms `i` and `j` are within the bonding cutoff used by the
    source (`ase.neighborlist.neighbor_list('ij', atoms, cutoff=1.6)`):
    distinct atoms at distance below 1.6, expressed via squared norms. -/
def isNeighbor (ps : List Vec3) (i j : Nat) : Bool :=
  decide (i ≠ j) &&
    decide (Vec3.norm2 ((ps.getD i Vec3.zero) - (ps.getD j Vec3.zero)) < 64 / 25)

/-- All neighbours of atom `a` in the cutoff graph. -/
def neighborsOf (ps : List Vec3) (a : Nat) : List Nat :=
  (List.range ps.length).filter (fun j => isNeighbor ps a j)

/-- The breadth-first growth of the rotating fragment in
    `_apply_single_torsion`: repeatedly pop an atom from the work queue and
    add its unvisited neighbours other than `bond_begin`/`bond_end`.  The
    fuel argument bounds the number of pops; each atom is enqueued at most
    once, so `|atoms|^2 + |atoms|` pops always suffice. -/
def growRotSet (ps : List Vec3) (b e : Nat) :
    Nat → List Nat → List Nat → List Nat
  | 0, visited, _ => visited
  | _ + 1, visited, [] => visited
  | fuel + 1, visited, c :: queue =>
      let fresh := (neighborsOf ps c).filter
        (fun j => decide (j ≠ b) && decide (j ≠ e) && !(visited.contains j))
      growRotSet ps b e fuel (visited ++ fresh) (queue ++ fresh)

/-- The set of atoms rotated by a torsion about the bond `(b, e)`: the
    neighbours of `e` other than `b`, closed under the cutoff graph while
    avoiding `b` and `e` (the source's `atoms_to_rotate`). -/
def atomsToRotate (ps : List Vec3) (b e : Nat) : List Nat :=
  let start := (neighborsOf ps e).filter (fun j => decide (j ≠ b))
  growRotSet ps b e (ps.length * ps.length + ps.length) start start

/-- Embedding of `TorsionHandler._apply_single_torsion`.  The bond axis is
    normalised without a zero-length check (`axis / np.linalg.norm(axis)`),
    the rotating fragment is collected, and then the rotation matrix is
    built by `_rotation_matrix_axis_angle`, whose failure propagates. -/
def applySingleTorsion (P : MathPrims) (ps : List Vec3) (b e : Nat)
    (angleDeg : ℚ) : Except PyErr (List Vec3) :=
  let angleRad := P.deg2rad angleDeg
  let axisRaw := (ps.getD e Vec3.zero) - (ps.getD b Vec3.zero)
  let axis := axisRaw.divQ (P.sqrt axisRaw.norm2)
  let toRot := atomsToRotate ps b e
  match rotationMatrixAxisAngle P axis angleRad with
  | .error err => .error err
  | .ok R =>
    let pivot := ps.getD e Vec3.zero
    .ok ((List.range ps.length).map (fun i =>
      let p := ps.getD i Vec3.zero
      if toRot.contains i then R.mulVec (p - pivot) + pivot else p))

/-- Sequential application of the (angle, bond) pairs, each acting on the
    geometry produced by the previous one; an exception aborts the loop. -/
def applyTorsionsGo (P : MathPrims) :
    List (ℚ × Nat × Nat) → List Vec3 → Except PyErr (List Vec3)
  | [], ps => .ok ps
  | (ang, b, e) :: rest, ps =>
    match applySingleTorsion P ps b e ang with
    | .error err => .error err
    | .ok ps' => applyTorsionsGo P rest ps'

/-- Embedding of `TorsionHandler.apply_torsions`.  The Bool of the result
    records whether the count-mismatch warning was logged.  A mismatched
    angle count returns the molecule unmodified with the warning; a rigid
    molecule (no bonds) is returned unmodified without it; otherwise each
    torsion is applied in bond-list order. -/
def applyTorsions (P : MathPrims) (bonds : List (Nat × Nat))
    (ps : List Vec3) (angles : List ℚ) : Except PyErr (List Vec3 × Bool) :=
  if angles.length ≠ bonds.length then .ok (ps, true)
  else if bonds.length = 0 then .ok (ps, false)
  else
    match applyTorsionsGo P (angles.zip bonds) ps with
    | .error err => .error err
    | .ok ps' => .ok (ps', false)

/-! ## Rigid-body transform and structure assembly -/

/-- An ASE `Atoms` object as consumed by the GA: per-atom masses and
    positions (the element labels and periodic cell play no role in the
    embedded computations). -/
structure Mol where
  masses : List ℚ
  pos : List Vec3
deriving DecidableEq

/-- Sum of a list of vectors. -/
def vsum : List Vec3 → Vec3
  | [] => Vec3.zero
  | v :: rest => v + vsum rest

/-- `Atoms.get_center_of_mass()`: the mass-weighted mean position. -/
def Mol.com (m : Mol) : Vec3 :=
  (vsum (List.zipWith Vec3.smul m.masses m.pos)).divQ m.masses.sum

/-- Modelled from the spec: the unweighted centroid of the point set
    (spec section 8, "Centroid invariance": the centroid is the unweighted
    mean of the positions).  The source has no such function; it is stated
    here to compare with the source's center-of-mass pivot. -/
def centroidSpec (m : Mol) : Vec3 :=
  (vsum m.pos).divQ (m.pos.length : ℚ)

/-- The combined Euler rotation matrix of `_apply_rotation`:
    `R = Rz @ Ry @ Rx` with the matrix entries exactly as written in the
    source, evaluated at the degree angles converted via `np.deg2rad`. -/
def eulerMatrix (P : MathPrims) (anglesDeg : Vec3) : Mat3 :=
  let a := P.deg2rad anglesDeg.x
  let b := P.deg2rad anglesDeg.y
  let g := P.deg2rad anglesDeg.z
  let Rx : Mat3 := ⟨1, 0, 0, 0, P.cos a, -(P.sin a), 0, P.sin a, P.cos a⟩
  let Ry : Mat3 := ⟨P.cos b, 0, P.sin b, 0, 1, 0, -(P.sin b), 0, P.cos b⟩
  let Rz : Mat3 := ⟨P.cos g, -(P.sin g), 0, P.sin g, P.cos g, 0, 0, 0, 1⟩
  Rz.mul (Ry.mul Rx)

/-- Embedding of `GeneticAlgorithm._apply_rotation`: subtract the center of
    mass, apply `R = Rz @ Ry @ Rx` to each position (`p @ R.T`), and re-add
    the center of mass. -/
def applyRotation (P : MathPrims) (anglesDeg : Vec3) (m : Mol) : Mol :=
  let R := eulerMatrix P anglesDeg
  let c := m.com
  { m with pos := m.pos.map (fun p => R.mulVec (p - c) + c) }

/-- Concatenation of two `Atoms` objects (`surface_copy + molecule_copy`). -/
def Mol.app (a b : Mol) : Mol := ⟨a.masses ++ b.masses, a.pos ++ b.pos⟩

/-- First three entries of a genome array as a vector. -/
def vec3OfList (l : List ℚ) : Vec3 := ⟨l.getD 0 0, l.getD 1 0, l.getD 2 0⟩

/-! ## Genome dicts, the array heap, and randomness -/

/-- The contents of an individual's Python dict.  The numpy arrays
    `position`, `orientation`, `torsions` are held by reference into the
    array heap, so that `dict.copy()` (which copies the dict but aliases
    the arrays) is modelled exactly. -/
structure GenomeD where
  posRef : Nat
  oriRef : Nat
  torsRef : Nat
  energy : Option ℚ
  struct : Option Mol
deriving DecidableEq

/-- Default dict used by total lookups; never reachable through the
    references the embedded code allocates. -/
def dfltG : GenomeD := ⟨0, 0, 0, none, none⟩

/-- The object heap: numpy arrays (lists of rationals) and genome dicts. -/
structure Heap where
  arrs : List (List ℚ)
  dicts : List GenomeD
deriving DecidableEq

def Heap.empty : Heap := ⟨[], []⟩

def readArr (h : Heap) (r : Nat) : List ℚ := h.arrs.getD r []

def writeArr (h : Heap) (r : Nat) (v : List ℚ) : Heap :=
  { h with arrs := h.arrs.set r v }

def allocArr (h : Heap) (v : List ℚ) : Heap × Nat :=
  ({ h with arrs := h.arrs ++ [v] }, h.arrs.length)

def readDict (h : Heap) (r : Nat) : GenomeD := h.dicts.getD r dfltG

def writeDict (h : Heap) (r : Nat) (g : GenomeD) : Heap :=
  { h with dicts := h.dicts.set r g }

def allocDict (h : Heap) (g : GenomeD) : Heap × Nat :=
  ({ h with dicts := h.dicts ++ [g] }, h.dicts.length)

/-- The `np.random` stream, supplied as an oracle: `unif n` is the value of
    the n-th uniform draw (`np.random.random` / `np.random.uniform`),
    `norm n` the n-th Gaussian draw (`np.random.normal`), and `pick c t`
    the t-th tournament index of the c-th `np.random.choice` call (reduced
    modulo the population size at use). -/
structure Oracle where
  unif : Nat → ℚ
  norm : Nat → ℚ
  pick : Nat → Nat → Nat

/-- The GA's constructor arguments (`GeneticAlgorithm.__init__`) that the
    embedded computations consume, with the rotatable-bond list of the
    molecule's `TorsionHandler` (an output of the external detector, fixed
    for the run).  `mutation_rate` is stored by the source but never read
    by it. -/
structure GAConfig where
  surface : Mol
  molecule : Mol
  bonds : List (Nat × Nat)
  surface_energy : ℚ
  molecule_energy : ℚ
  generations : Nat
  population_size : Nat
  mutation_rate : ℚ
  crossover_rate : ℚ
  elite_size : Nat

/-- `self.surface_center_xy[0]` (numpy mean of the x coordinates; the
    source would fail at construction on an empty surface, totalised here
    with value 0 on the empty list). -/
def surfaceCenterX (m : Mol) : ℚ := (m.pos.map Vec3.x).sum / (m.pos.length : ℚ)

/-- `self.surface_center_xy[1]`. -/
def surfaceCenterY (m : Mol) : ℚ := (m.pos.map Vec3.y).sum / (m.pos.length : ℚ)

/-- `self.surface_z_max` (numpy max of the z coordinates, totalised with 0
    on the empty list, which the source rejects at construction). -/
def surfaceZMax (m : Mol) : ℚ :=
  match m.pos.map Vec3.z with
  | [] => 0
  | zh :: zt => zt.foldl max zh

/-- The external ASE calculator, as an opaque scoring oracle: total energy
    of a combined structure, or an arbitrary failure. -/
def Calc : Type := Mol → Except Unit ℚ

/-- Embedding of `GeneticAlgorithm._create_system`: copy surface and
    molecule, apply torsions first when rotatable bonds exist (failures
    propagate), translate the molecule's center of mass to the genome
    position, rotate about the (new) center of mass by the Euler angles,
    and concatenate surface and molecule. -/
def createSystem (P : MathPrims) (cfg : GAConfig)
    (pos ori tors : List ℚ) : Except PyErr Mol :=
  let molT : Except PyErr Mol :=
    if cfg.bonds.length > 0 then
      match applyTorsions P cfg.bonds cfg.molecule.pos tors with
      | .error err => .error err
      | .ok res => .ok { cfg.molecule with pos := res.1 }
    else .ok cfg.molecule
  match molT with
  | .error err => .error err
  | .ok m1 =>
    let shift := vec3OfList pos - m1.com
    let m2 := { m1 with pos := m1.pos.map (fun p => p + shift) }
    let m3 := applyRotation P (vec3OfList ori) m2
    .ok (cfg.surface.app m3)

/-- Embedding of `GeneticAlgorithm._calculate_energy`: the whole body runs
    inside `try`, any failure yields the fixed penalty 1000.0; on success
    the adsorption energy `E - (E_surface + E_molecule)` is returned and the
    realized structure is cached on the individual (second component;
    `none` means the `structure` key was not assigned). -/
def calculateEnergy (P : MathPrims) (cfg : GAConfig) (ec : Calc)
    (pos ori tors : List ℚ) : ℚ × Option Mol :=
  match createSystem P cfg pos ori tors with
  | .error _ => (1000, none)
  | .ok system =>
    match ec system with
    | .error _ => (1000, none)
    | .ok energy => (energy - (cfg.surface_energy + cfg.molecule_energy), some system)

/-- The run state of a `GeneticAlgorithm` instance: the object heap, the
    population (a list of dict references), the evaluation history, the
    best-so-far record (`best_energy = none` models `float('inf')`, and
    `best_individual` holds the shallow `dict.copy()` value), and the
    positions of the three random streams. -/
structure GAState where
  heap : Heap
  population : List Nat
  fitness_history : List ℚ
  best_energy : Option ℚ
  best_individual : Option GenomeD
  uCtr : Nat
  nCtr : Nat
  pCtr : Nat
deriving DecidableEq

def initState : GAState := ⟨Heap.empty, [], [], none, none, 0, 0, 0⟩

/-- `e < self.best_energy` where `best_energy` starts at `float('inf')`. -/
def energyLt (e : ℚ) : Option ℚ → Bool
  | none => true
  | some b => decide (e < b)

/-- One individual of `_initialize_population`: position drawn around the
    surface center and above the surface top, three Euler angles and one
    angle per torsion; three fresh arrays and a fresh dict are allocated. -/
def initOne (O : Oracle) (cfg : GAConfig) (s : GAState) : GAState :=
  let c := s.uCtr
  let n := cfg.bonds.length
  let x := surfaceCenterX cfg.surface + O.unif c
  let y := surfaceCenterY cfg.surface + O.unif (c + 1)
  let z := surfaceZMax cfg.surface + O.unif (c + 2)
  let euler := [O.unif (c + 3), O.unif (c + 4), O.unif (c + 5)]
  let tors := (List.range n).map (fun i => O.unif (c + 6 + i))
  let (h1, rp) := allocArr s.heap [x, y, z]
  let (h2, ro) := allocArr h1 euler
  let (h3, rt) := allocArr h2 tors
  let (h4, rd) := allocDict h3 ⟨rp, ro, rt, none, none⟩
  { s with heap := h4, population := s.population ++ [rd], uCtr := c + 6 + n }

/-- `_initialize_population`: `population_size` random individuals. -/
def initPopulation (O : Oracle) (cfg : GAConfig) : GAState :=
  (List.range cfg.population_size).foldl (fun s _ => initOne O cfg s) initState

/-- One step of `_evaluate_population`: skip an already-scored individual;
    otherwise score it, store energy and cached structure in its dict,
    append the energy to the history, and on strict improvement record the
    new best energy together with a shallow `dict.copy()` of the dict. -/
def evalOne (P : MathPrims) (cfg : GAConfig) (ec : Calc)
    (s : GAState) (r : Nat) : GAState :=
  let g := readDict s.heap r
  match g.energy with
  | some _ => s
  | none =>
    let res := calculateEnergy P cfg ec
      (readArr s.heap g.posRef) (readArr s.heap g.oriRef) (readArr s.heap g.torsRef)
    let g' : GenomeD :=
      { g with
        energy := some res.1
        struct := match res.2 with | some m => some m | none => g.struct }
    let improved := energyLt res.1 s.best_energy
    { s with heap := writeDict s.heap r g',
             fitness_history := s.fitness_history ++ [res.1],
             best_energy := if improved then some res.1 else s.best_energy,
             best_individual := if improved then some g' else s.best_individual }

/-- `_evaluate_population`: score every individual lacking a cached
    energy, in population order. -/
def evalPopulation (P : MathPrims) (cfg : GAConfig) (ec : Calc)
    (s : GAState) : GAState :=
  s.population.foldl (evalOne P cfg ec) s

/-- The sort key of `population.sort(key=lambda x: x['energy'])`; every
    individual has a cached energy when the source sorts. -/
def keyE (h : Heap) (r : Nat) : ℚ := ((readDict h r).energy).getD 0

/-- Stable sort of the population by energy (Python's `list.sort` is
    stable; any stable sort by the same key computes the same list). -/
def sortPop (h : Heap) (pop : List Nat) : List Nat :=
  List.insertionSort (fun a b => keyE h a ≤ keyE h b) pop

/-- Python `min(tournament, key=...)`: the first element attaining the
    minimal key. -/
def minByKey (f : Nat → ℚ) : List Nat → Nat
  | [] => 0
  | h :: t => t.foldl (fun b y => if f y < f b then y else b) h

/-- Embedding of `_select_parent`: `np.random.choice(len(population), 5,
    replace=False)` raises when the population is smaller than the
    hard-coded tournament size 5; otherwise the tournament winner's dict is
    returned as a shallow copy (a dict value aliasing the winner's
    arrays). -/
def selectParent (O : Oracle) (s : GAState) :
    Except PyErr (GenomeD × GAState) :=
  let n := s.population.length
  if n < 5 then .error .choiceTooBig
  else
    let idxs := (List.range 5).map (fun t => O.pick s.pCtr t % n)
    let widx := minByKey (fun i => keyE s.heap (s.population.getD i 0)) idxs
    .ok (readDict s.heap (s.population.getD widx 0), { s with pCtr := s.pCtr + 1 })

/-- Embedding of `_crossover`: the child takes a fresh copy of parent1's
    position array, a fresh copy of parent2's orientation array, and a
    fresh torsion array mixing the parents' genes with one uniform draw per
    gene; energy and structure are unset. -/
def crossoverG (O : Oracle) (cfg : GAConfig) (s : GAState)
    (p1 p2 : GenomeD) : GenomeD × GAState :=
  let n := cfg.bonds.length
  let t1 := readArr s.heap p1.torsRef
  let t2 := readArr s.heap p2.torsRef
  let tors := (List.range n).map
    (fun i => if O.unif (s.uCtr + i) < 1 / 2 then t1.getD i 0 else t2.getD i 0)
  let (h1, rp) := allocArr s.heap (readArr s.heap p1.posRef)
  let (h2, ro) := allocArr h1 (readArr s.heap p2.oriRef)
  let (h3, rt) := allocArr h2 tors
  (⟨rp, ro, rt, none, none⟩, { s with heap := h3, uCtr := s.uCtr + n })

/-- Python float modulo 360 (`x % 360`, result in `[0, 360)`). -/
def qmod360 (x : ℚ) : ℚ := x - 360 * ((Int.floor (x / 360) : ℤ) : ℚ)

/-- The torsion-mutation loop of `_mutate`: for each gene, draw the coin;
    when it hits, `torsions[i] += normal(0, 20)` followed by
    `torsions[i] %= 360`, both mutating the (shared) array in place. -/
def mutateTors (O : Oracle) (torsRef : Nat) :
    List Nat → Heap → Nat → Nat → Heap × Nat × Nat
  | [], h, u, nn => (h, u, nn)
  | i :: rest, h, u, nn =>
    if O.unif u < 1 / 2 then
      let arr := readArr h torsRef
      let v := qmod360 (arr.getD i 0 + O.norm nn)
      mutateTors O torsRef rest (writeArr h torsRef (arr.set i v)) (u + 1) (nn + 1)
    else
      mutateTors O torsRef rest h (u + 1) nn

/-- Embedding of `_mutate` applied to a shallow copy of a parent dict: one
    of three mutation classes.  Position: `+=` Gaussian noise in place on
    the aliased array.  Orientation: `+=` in place, then rebinding the dict
    key to a fresh wrapped array (the shared array keeps the unwrapped
    values).  Torsions: per-gene in-place perturbation and wrap.  Energy
    and structure of the (copied) dict are reset. -/
def mutateG (O : Oracle) (cfg : GAConfig) (s : GAState) (g : GenomeD) :
    GenomeD × GAState :=
  let choice := O.unif s.uCtr
  let s1 := { s with uCtr := s.uCtr + 1 }
  if choice < 33 / 100 then
    let old := readArr s1.heap g.posRef
    let noise := [O.norm s1.nCtr, O.norm (s1.nCtr + 1), O.norm (s1.nCtr + 2)]
    let h' := writeArr s1.heap g.posRef (List.zipWith (· + ·) old noise)
    ({ g with energy := none, struct := none },
     { s1 with heap := h', nCtr := s1.nCtr + 3 })
  else if choice < 66 / 100 then
    let old := readArr s1.heap g.oriRef
    let bumped := List.zipWith (· + ·) old
      [O.norm s1.nCtr, O.norm (s1.nCtr + 1), O.norm (s1.nCtr + 2)]
    let h1 := writeArr s1.heap g.oriRef bumped
    let (h2, ro) := allocArr h1 (bumped.map qmod360)
    ({ g with oriRef := ro, energy := none, struct := none },
     { s1 with heap := h2, nCtr := s1.nCtr + 3 })
  else
    let res := mutateTors O g.torsRef (List.range cfg.bonds.length)
      s1.heap s1.uCtr s1.nCtr
    ({ g with energy := none, struct := none },
     { s1 with heap := res.1, uCtr := res.2.1, nCtr := res.2.2 })

/-- One iteration of the refill loop in `_selection_crossover_mutation`:
    crossover of two tournament parents with probability `crossover_rate`,
    otherwise mutation of a tournament parent's copy; the child dict is
    allocated and appended. -/
def fillStep (O : Oracle) (cfg : GAConfig) (s : GAState) (acc : List Nat) :
    Except PyErr (GAState × List Nat) :=
  let r := O.unif s.uCtr
  let s0 := { s with uCtr := s.uCtr + 1 }
  if r < cfg.crossover_rate then
    match selectParent O s0 with
    | .error err => .error err
    | .ok (p1, s1) =>
      match selectParent O s1 with
      | .error err => .error err
      | .ok (p2, s2) =>
        let (child, s3) := crossoverG O cfg s2 p1 p2
        let (h', rd) := allocDict s3.heap child
        .ok ({ s3 with heap := h' }, acc ++ [rd])
  else
    match selectParent O s0 with
    | .error err => .error err
    | .ok (p, s1) =>
      let (child, s2) := mutateG O cfg s1 p
      let (h', rd) := allocDict s2.heap child
      .ok ({ s2 with heap := h' }, acc ++ [rd])

/-- The `while len(new_population) < population_size` loop; each iteration
    appends exactly one child, so the iteration count is the initial
    shortfall. -/
def fillLoop (O : Oracle) (cfg : GAConfig) :
    Nat → GAState → List Nat → Except PyErr (GAState × List Nat)
  | 0, s, acc => .ok (s, acc)
  | k + 1, s, acc =>
    match fillStep O cfg s acc with
    | .error err => .error err
    | .ok (s', acc') => fillLoop O cfg k s' acc'

/-- Embedding of `_selection_crossover_mutation`: sort the population by
    energy, start the next generation with the first `elite_size` dicts
    (a list copy: the same dict objects), refill to `population_size`, and
    install the new population. -/
def selectionCM (O : Oracle) (cfg : GAConfig) (s : GAState) :
    Except PyErr GAState :=
  let sorted := sortPop s.heap s.population
  let s1 := { s with population := sorted }
  let acc := sorted.take cfg.elite_size
  match fillLoop O cfg (cfg.population_size - acc.length) s1 acc with
  | .error err => .error err
  | .ok (s2, acc') => .ok { s2 with population := acc' }

/-- The generation loop of `run`: evaluate, then reproduce, `generations`
    times (logging omitted; it performs no state change for a nonempty
    history). -/
def gaLoop (P : MathPrims) (cfg : GAConfig) (ec : Calc) (O : Oracle) :
    Nat → GAState → Except PyErr GAState
  | 0, s => .ok s
  | g + 1, s =>
    match selectionCM O cfg (evalPopulation P cfg ec s) with
    | .error err => .error err
    | .ok s' => gaLoop P cfg ec O g s'

/-- The result dictionary of `_get_results`. -/
structure GAResults where
  best_individual : Option GenomeD
  best_energy : Option ℚ
  best_structure : Option Mol
  fitness_history : List ℚ
  generations : Nat
  population_size : Nat
deriving DecidableEq

def getResults (cfg : GAConfig) (s : GAState) : GAResults :=
  ⟨s.best_individual, s.best_energy,
   (match s.best_individual with | some g => g.struct | none => none),
   s.fitness_history, cfg.generations, cfg.population_size⟩

/-- Embedding of `GeneticAlgorithm.run`: initialize, iterate the
    generation loop, return the results record; exceptions escaping the
    loop propagate. -/
def runGA (P : MathPrims) (cfg : GAConfig) (ec : Calc) (O : Oracle) :
    Except PyErr GAResults :=
  match gaLoop P cfg ec O cfg.generations (initPopulation O cfg) with
  | .error err => .error err
  | .ok s => .ok (getResults cfg s)

/-! ## Concrete instances used to evaluate the embedding -/

/-- Trivial transcendental table: cos = 1, sin = 0 everywhere (exact at
    angle 0), degree conversion left symbolic as the identity. -/
def P0 : MathPrims := ⟨fun _ => 0, fun _ => 1, fun _ => 0, fun q => q⟩

/-- Transcendental table exact at 0 and 180 degrees (with `deg2rad` kept as
    the identity so the tabulated points are the degree values): cos 180 =
    -1, cos 0 = 1, sin = 0 at both points. -/
def P180 : MathPrims :=
  ⟨fun _ => 0, fun q => if q = 180 then -1 else 1, fun _ => 0, fun q => q⟩

/-- Deterministic random stream: every uniform draw is 0, every Gaussian
    draw is 1, every tournament pick is index 0. -/
def O0 : Oracle := ⟨fun _ => 0, fun _ => 1, fun _ _ => 0⟩

/-- A calculator stub returning the same total energy for every structure. -/
def calcConst (E : ℚ) : Calc := fun _ => .ok E

/-- A calculator stub that fails on every invocation. -/
def calcFail : Calc := fun _ => .error ()

/-- A single atom of mass 1 at the origin. -/
def mol1 : Mol := ⟨[1], [Vec3.zero]⟩

/-- Two atoms of different masses on the x axis; its unweighted centroid
    (1/2, 0, 0) differs from its center of mass (3/4, 0, 0). -/
def molW : Mol := ⟨[1, 3], [⟨0, 0, 0⟩, ⟨1, 0, 0⟩]⟩

/-- Two atoms of equal mass 2. -/
def molEq : Mol := ⟨[2, 2], [⟨1, 0, 0⟩, ⟨0, 1, 0⟩]⟩

/-- Configuration factory over the degenerate one-atom surface/molecule
    pair with no rotatable bonds and zero reference energies. -/
def mkCfg (gens popsize elite : Nat) (xrate : ℚ) : GAConfig :=
  ⟨mol1, mol1, [], 0, 0, gens, popsize, 3 / 10, xrate, elite⟩

/-- C2 counterexample run: population 4 with elite 2 forces the refill loop
    to call tournament selection on a population smaller than 5. -/
def cfgC2x : GAConfig := mkCfg 1 4 2 (7 / 10)

/-- C2 witness run: population 1 carried wholly by elitism. -/
def cfgC2w : GAConfig := mkCfg 1 1 1 (7 / 10)

/-- C4 counterexample run: population 3, elite 1. -/
def cfgC4x : GAConfig := mkCfg 1 3 1 (7 / 10)

/-- C4 witness run: population 2 carried wholly by elitism. -/
def cfgC4w : GAConfig := mkCfg 1 2 2 (7 / 10)

/-- C7 witness run: population 1, one generation, constant calculator. -/
def cfgC7w : GAConfig := mkCfg 1 1 1 (7 / 10)

/-- C3 scenario: population 5, elite 4, crossover rate 0 (every refill
    mutates), so the single refill mutates a copy of the sorted-first
    (best) individual in place. -/
def cfgC3 : GAConfig := mkCfg 1 5 4 0

/-- The C3 state after initialization and one population evaluation. -/
def s2c3 : GAState := evalPopulation P0 cfgC3 (calcConst 7) (initPopulation O0 cfgC3)

/-- The C3 state after the following reproduction step. -/
def s3c3 : GAState :=
  match selectionCM O0 cfgC3 s2c3 with
  | .ok s => s
  | .error _ => initState

/-- The array reference held by the recorded best individual's `position`
    entry in the C3 scenario. -/
def bestRef3 : Nat :=
  match s2c3.best_individual with
  | some g => g.posRef
  | none => 999

/-- C5 counterexample scenario: population 5, elite 2, crossover rate 0. -/
def cfgC5 : GAConfig := mkCfg 1 5 2 0

/-- The C5 counterexample state after initialization and evaluation. -/
def s2c5 : GAState := evalPopulation P0 cfgC5 (calcConst 7) (initPopulation O0 cfgC5)

/-- The C5 counterexample state after the reproduction step. -/
def s3c5 : GAState :=
  match selectionCM O0 cfgC5 s2c5 with
  | .ok s => s
  | .error _ => initState

/-- The first elite slot of the C5 next generation. -/
def eliteRef5 : Nat := s3c5.population.getD 0 999

/-- C5 witness scenario: crossover rate 1 with an all-zero uniform stream,
    so every refill takes the crossover branch. -/
def cfgC5w : GAConfig := mkCfg 1 5 2 1

/-- The C5 witness state after initialization and evaluation. -/
def s2c5w : GAState := evalPopulation P0 cfgC5w (calcConst 7) (initPopulation O0 cfgC5w)

/-- The C5 witness state after the crossover-only reproduction step. -/
def s3c5w : GAState :=
  match selectionCM O0 cfgC5w s2c5w with
  | .ok s => s
  | .error _ => initState

/-- Parent dicts and heap used by the C6 witness. -/
def heapC6 : Heap :=
  ⟨[[1, 2, 3], [4, 5, 6], [7], [10, 20, 30], [40, 50, 60], [9]], []⟩

def stateC6 : GAState := ⟨heapC6, [], [], none, none, 0, 0, 0⟩

def cfgC6 : GAConfig := ⟨mol1, mol1, [(0, 1)], 0, 0, 1, 5, 3 / 10, 7 / 10, 2⟩

def parent1C6 : GenomeD := ⟨0, 1, 2, some 1, none⟩

def parent2C6 : GenomeD := ⟨3, 4, 5, some 2, none⟩

/-- Positions used by the C9/C10 witnesses: two atoms one Angstrom apart. -/
def psC9 : List Vec3 := [Vec3.zero, ⟨0, 0, 1⟩]

/-- Degenerate positions for C10: the two bond atoms coincide, so the bond
    axis is the zero vector. -/
def psC10 : List Vec3 := [Vec3.zero, Vec3.zero, ⟨0, 0, 1⟩]

/-- Whether every population entry is a dict reference into the heap whose
    three array references are live; true of every state the embedded
    constructors produce. -/
def ValidState (s : GAState) : Prop :=
  ∀ r ∈ s.population, r < s.heap.dicts.length ∧
    (readDict s.heap r).posRef < s.heap.arrs.length ∧
    (readDict s.heap r).oriRef < s.heap.arrs.length ∧
    (readDict s.heap r).torsRef < s.heap.arrs.length

instance : DecidablePred ValidState := fun s => by
  unfold ValidState; infer_instance

/-- Conservative heap extension: lengths grow and live cells keep their
    contents. -/
def HeapExt (h h' : Heap) : Prop :=
  h.arrs.length ≤ h'.arrs.length ∧ h.dicts.length ≤ h'.dicts.length ∧
  (∀ a < h.arrs.length, readArr h' a = readArr h a) ∧
  (∀ d < h.dicts.length, readDict h' d = readDict h d)

deriving instance DecidableEq for Except

/-- Run invariant for a constant evaluation outcome `e0`: every history
    entry equals `e0`, and the best-so-far record is either `e0` or still
    at its `float('inf')` start with no individual scored yet. -/
def InvE (e0 : ℚ) (s : GAState) : Prop :=
  (∀ x ∈ s.fitness_history, x = e0) ∧
  (s.best_energy = some e0 ∨
    (s.best_energy = none ∧ ∀ d ∈ s.heap.dicts, d.energy = none))

/-- Run invariant for an arbitrary calculator: either a best individual is
    on record, or nothing has been scored yet. -/
def InvB (s : GAState) : Prop :=
  (s.best_energy.isSome ∧ s.best_individual.isSome) ∨
  (s.best_energy = none ∧ ∀ d ∈ s.heap.dicts, d.energy = none)

/-! ## Basic lemmas -/

@[ext] theorem Vec3.ext {a b : Vec3} (hx : a.x = b.x) (hy : a.y = b.y)
    (hz : a.z = b.z) : a = b := by
  cases a; cases b; simp_all

@[simp] theorem Vec3.add_def (a b : Vec3) :
    a + b = ⟨a.x + b.x, a.y + b.y, a.z + b.z⟩ := rfl

@[simp] theorem Vec3.sub_def (a b : Vec3) :
    a - b = ⟨a.x - b.x, a.y - b.y, a.z - b.z⟩ := rfl

theorem getD_snoc3_at0 (l : List (List ℚ)) (a b c : List ℚ) :
    (((l ++ [a]) ++ [b]) ++ [c]).getD l.length [] = a := by
  have h : ((l ++ [a]) ++ [b]) ++ [c] = l ++ [a, b, c] := by simp
  rw [h, List.getD_append_right _ _ _ _ (Nat.le_refl _)]
  simp

theorem getD_snoc3_at1 (l : List (List ℚ)) (a b c : List ℚ) :
    (((l ++ [a]) ++ [b]) ++ [c]).getD (l ++ [a]).length [] = b := by
  have h : ((l ++ [a]) ++ [b]) ++ [c] = l ++ [a, b, c] := by simp
  have h1 : (l ++ [a]).length = l.length + 1 := by simp
  rw [h, h1, List.getD_append_right _ _ _ _ (Nat.le_add_right _ _)]
  simp

theorem getD_snoc3_at2 (l : List (List ℚ)) (a b c : List ℚ) :
    (((l ++ [a]) ++ [b]) ++ [c]).getD ((l ++ [a]) ++ [b]).length [] = c := by
  have h : ((l ++ [a]) ++ [b]) ++ [c] = l ++ [a, b, c] := by simp
  have h1 : ((l ++ [a]) ++ [b]).length = l.length + 2 := by simp
  rw [h, h1, List.getD_append_right _ _ _ _ (Nat.le_add_right _ _)]
  simp

theorem getD_map_range (f : Nat → ℚ) (n i : Nat) (h : i < n) :
    ((List.range n).map f).getD i 0 = f i := by
  simp [List.getD_eq_getElem?_getD, List.getElem?_map, h]

/-- `_apply_single_torsion` raises the scalar-matmul error on every input:
    the rotation-matrix construction it always reaches is unconditionally
    broken. -/
theorem applySingleTorsion_raises (P : MathPrims) (ps : List Vec3)
    (b e : Nat) (ang : ℚ) :
    applySingleTorsion P ps b e ang = .error .matmulScalar := rfl

/-! ## Claim theorems -/

/-- C1: the claim states that `_rotation_matrix_axis_angle` returns the
Rodrigues matrix `I + sin(θ)K + (1-cos(θ))K²` without failing, for every
unit axis and angle.  In the source the third term is written
`(1 - cos_a) @ (K @ K)`: the scalar `1 - cos_a` is an operand of numpy
`matmul`, which raises on scalars, so the function raises on every input
(unit axis or not) and never returns the matrix its own docstring
documents. -/
theorem c1_rotation_matrix_always_raises (P : MathPrims) (axis : Vec3)
    (angle : ℚ) :
    rotationMatrixAxisAngle P axis angle = .error .matmulScalar ∧
    rotationMatrixAxisAngle P axis angle ≠ .ok (rodriguesSpec P axis angle) := by
  refine ⟨rfl, ?_⟩
  intro h
  rw [show rotationMatrixAxisAngle P axis angle = .error .matmulScalar from rfl] at h
  exact Except.noConfusion h

/-- C10: the claim states that a zero-length torsion axis is rejected with
an explicit precondition failure propagated to the caller, and that no
other failure mode exists in the transform layer.  The source never checks
the axis length: `axis / np.linalg.norm(axis)` divides unconditionally
(yielding IEEE NaNs for a zero axis), and the subsequent
`_rotation_matrix_axis_angle` call raises the same scalar-matmul TypeError
for every input.  Evaluated at the failing input (the bond atoms 0 and 1 of
`psC10` coincide) and at a non-degenerate bond (`psC9`), the outcome is the
identical generic error, not an axis-specific precondition failure. -/
theorem c10_zero_axis_not_rejected :
    (∀ (P : MathPrims) (ps : List Vec3) (b e : Nat) (ang : ℚ),
      applySingleTorsion P ps b e ang = .error .matmulScalar) ∧
    applySingleTorsion P0 psC10 0 1 90 = .error .matmulScalar ∧
    applySingleTorsion P0 psC9 0 1 90 = .error .matmulScalar :=
  ⟨fun P ps b e ang => applySingleTorsion_raises P ps b e ang, rfl, rfl⟩

/-- C9: a torsion-angle list whose length differs from the detected bond
count makes `apply_torsions` return the molecule with every position
unchanged while logging the mismatch warning (the Bool component), and
this is the only silent path: with a matching count the call is either the
rigid-molecule no-op (no warning) or raises out of the torsion
application. -/
theorem c9_mismatch_only_silent (P : MathPrims) (bonds : List (Nat × Nat))
    (ps : List Vec3) (angles : List ℚ) :
    (angles.length ≠ bonds.length → applyTorsions P bonds ps angles = .ok (ps, true)) ∧
    (angles.length = bonds.length → bonds = [] →
      applyTorsions P bonds ps angles = .ok (ps, false)) ∧
    (angles.length = bonds.length → bonds ≠ [] →
      applyTorsions P bonds ps angles = .error .matmulScalar) := by
  refine ⟨fun h => by simp [applyTorsions, h], fun h hb => ?_, fun h hb => ?_⟩
  · subst hb
    simp only [List.length_nil] at h
    simp [applyTorsions, h]
  · obtain ⟨b, bs, rfl⟩ := List.exists_cons_of_ne_nil hb
    obtain ⟨b0, e0⟩ := b
    cases angles with
    | nil => exact absurd h (by simp)
    | cons a0 as' =>
      simp [applyTorsions, h, applyTorsionsGo, applySingleTorsion_raises]

/-- C9 witness: a one-bond handler given zero angles returns the molecule
unchanged with the warning; given the matching one angle it raises. -/
theorem c9_witness :
    applyTorsions P0 [(0, 1)] psC9 [] = .ok (psC9, true) ∧
    applyTorsions P0 [(0, 1)] psC9 [30] = .error .matmulScalar :=
  ⟨(c9_mismatch_only_silent P0 [(0, 1)] psC9 []).1 (by decide),
   (c9_mismatch_only_silent P0 [(0, 1)] psC9 [30]).2.2 (by decide) (by decide)⟩

/-- C6: crossover builds a child whose position array equals parent1's
position exactly (a fresh copy of it, never parent2's and never an
average), whose orientation equals parent2's, whose each torsion gene is
the corresponding gene of parent1 or of parent2 (selected by the per-gene
coin), and whose energy and cached structure are unset. -/
theorem c6_crossover_child (O : Oracle) (cfg : GAConfig) (s : GAState)
    (p1 p2 : GenomeD) :
    readArr (crossoverG O cfg s p1 p2).2.heap (crossoverG O cfg s p1 p2).1.posRef
      = readArr s.heap p1.posRef ∧
    readArr (crossoverG O cfg s p1 p2).2.heap (crossoverG O cfg s p1 p2).1.oriRef
      = readArr s.heap p2.oriRef ∧
    (crossoverG O cfg s p1 p2).1.energy = none ∧
    (crossoverG O cfg s p1 p2).1.struct = none ∧
    (∀ i, i < cfg.bonds.length →
      (readArr (crossoverG O cfg s p1 p2).2.heap
          (crossoverG O cfg s p1 p2).1.torsRef).getD i 0
        = (readArr s.heap p1.torsRef).getD i 0 ∨
      (readArr (crossoverG O cfg s p1 p2).2.heap
          (crossoverG O cfg s p1 p2).1.torsRef).getD i 0
        = (readArr s.heap p2.torsRef).getD i 0) := by
  refine ⟨?_, ?_, rfl, rfl, ?_⟩
  · exact getD_snoc3_at0 s.heap.arrs (readArr s.heap p1.posRef)
      (readArr s.heap p2.oriRef) _
  · exact getD_snoc3_at1 s.heap.arrs (readArr s.heap p1.posRef)
      (readArr s.heap p2.oriRef) _
  · intro i hi
    have h2 : (readArr (crossoverG O cfg s p1 p2).2.heap
        (crossoverG O cfg s p1 p2).1.torsRef)
        = (List.range cfg.bonds.length).map
          (fun i => if O.unif (s.uCtr + i) < 1 / 2
            then (readArr s.heap p1.torsRef).getD i 0
            else (readArr s.heap p2.torsRef).getD i 0) :=
      getD_snoc3_at2 s.heap.arrs (readArr s.heap p1.posRef)
        (readArr s.heap p2.oriRef) _
    rw [h2, getD_map_range _ _ _ hi]
    by_cases hc : O.unif (s.uCtr + i) < 1 / 2
    · exact Or.inl (by rw [if_pos hc])
    · exact Or.inr (by rw [if_neg hc])

/-- C6 witness: concrete parents with distinct positions; the child's
position is exactly parent1's array value, its orientation parent2's, its
single torsion gene one of the parents' genes, and its energy unset. -/
theorem c6_witness :
    readArr (crossoverG O0 cfgC6 stateC6 parent1C6 parent2C6).2.heap
        (crossoverG O0 cfgC6 stateC6 parent1C6 parent2C6).1.posRef = [1, 2, 3] ∧
    readArr (crossoverG O0 cfgC6 stateC6 parent1C6 parent2C6).2.heap
        (crossoverG O0 cfgC6 stateC6 parent1C6 parent2C6).1.oriRef = [40, 50, 60] ∧
    (crossoverG O0 cfgC6 stateC6 parent1C6 parent2C6).1.energy = none ∧
    ((readArr (crossoverG O0 cfgC6 stateC6 parent1C6 parent2C6).2.heap
        (crossoverG O0 cfgC6 stateC6 parent1C6 parent2C6).1.torsRef).getD 0 0
      = (readArr stateC6.heap parent1C6.torsRef).getD 0 0 ∨
     (readArr (crossoverG O0 cfgC6 stateC6 parent1C6 parent2C6).2.heap
        (crossoverG O0 cfgC6 stateC6 parent1C6 parent2C6).1.torsRef).getD 0 0
      = (readArr stateC6.heap parent2C6.torsRef).getD 0 0) := by
  obtain ⟨h1, h2, h3, _h4, h5⟩ := c6_crossover_child O0 cfgC6 stateC6 parent1C6 parent2C6
  exact ⟨by rw [h1]; decide, by rw [h2]; decide, h3, h5 0 (by decide)⟩

/-- Affine-map distribution over the weighted position sum: rotating every
    position about `c` by any matrix maps the weighted sum accordingly. -/
theorem vsum_zip_affine (A : Mat3) (c : Vec3) :
    ∀ (ms : List ℚ) (ps : List Vec3), ms.length = ps.length →
    vsum (List.zipWith Vec3.smul ms (ps.map fun p => A.mulVec (p - c) + c)) =
      A.mulVec (vsum (List.zipWith Vec3.smul ms ps) - Vec3.smul ms.sum c) +
        Vec3.smul ms.sum c := by
  intro ms
  induction ms with
  | nil =>
    intro ps _
    apply Vec3.ext <;> simp [vsum, Vec3.smul, Mat3.mulVec, Vec3.zero]
  | cons q ms ih =>
    intro ps h
    cases ps with
    | nil => exact absurd h (by simp)
    | cons p ps' =>
      have ih' := ih ps' (by simpa using h)
      simp only [List.map_cons, List.zipWith_cons_cons, vsum, ih', List.sum_cons]
      apply Vec3.ext <;>
        simp [Vec3.smul, Mat3.mulVec, Vec3.zero] <;> ring

/-- `_apply_rotation` leaves the center of mass fixed: the pivot is the
    center of mass itself, so the affine rotation fixes it (for the empty
    or zero-total-mass edge cases both sides degenerate to the same
    zero-division value). -/
theorem applyRotation_com_eq (P : MathPrims) (ang : Vec3) (m : Mol)
    (hlen : m.masses.length = m.pos.length) :
    (applyRotation P ang m).com = m.com := by
  have hS := vsum_zip_affine (eulerMatrix P ang) m.com m.masses m.pos hlen
  show (vsum (List.zipWith Vec3.smul m.masses
      (m.pos.map fun p => (eulerMatrix P ang).mulVec (p - m.com) + m.com))).divQ
      m.masses.sum = m.com
  rw [hS]
  by_cases hM : m.masses.sum = 0
  · apply Vec3.ext <;> simp [Mol.com, Vec3.divQ, hM]
  · have hMc : Vec3.smul m.masses.sum m.com
        = vsum (List.zipWith Vec3.smul m.masses m.pos) := by
      apply Vec3.ext <;>
        simp [Mol.com, Vec3.smul, Vec3.divQ] <;>
        rw [mul_div_cancel₀ _ hM]
    rw [hMc]
    apply Vec3.ext <;>
      simp [Mol.com, Vec3.divQ, Mat3.mulVec, Vec3.zero]

/-- With equal masses the zipped weighted sum is the scaled plain sum. -/
theorem zipWith_replicate_smul (q : ℚ) :
    ∀ ps : List Vec3,
      List.zipWith Vec3.smul (List.replicate ps.length q) ps
        = ps.map (Vec3.smul q)
  | [] => rfl
  | p :: ps' => by
    simp only [List.length_cons, List.replicate_succ, List.zipWith_cons_cons,
      List.map_cons, zipWith_replicate_smul q ps']

theorem vsum_map_smul (q : ℚ) :
    ∀ ps : List Vec3, vsum (ps.map (Vec3.smul q)) = Vec3.smul q (vsum ps)
  | [] => by apply Vec3.ext <;> simp [vsum, Vec3.smul, Vec3.zero]
  | p :: ps' => by
    simp only [List.map_cons, vsum, vsum_map_smul q ps']
    apply Vec3.ext <;> simp [Vec3.smul] <;> ring

/-- When every atom has the same nonzero mass, the source's center of mass
    equals the spec's unweighted centroid. -/
theorem centroid_eq_com_of_replicate (m : Mol) (q : ℚ) (hq : q ≠ 0)
    (hm : m.masses = List.replicate m.pos.length q) :
    centroidSpec m = m.com := by
  unfold centroidSpec Mol.com
  rw [hm, zipWith_replicate_smul, vsum_map_smul, List.sum_replicate,
    nsmul_eq_mul]
  apply Vec3.ext <;>
    simp only [Vec3.smul, Vec3.divQ] <;>
    rw [mul_comm (m.pos.length : ℚ) q, mul_div_mul_left _ _ hq]

/-- C8: the claim states that the Euler rotation about the "centroid
(unweighted mean)" leaves that centroid unchanged.  The source pivots on
`get_center_of_mass()`, the mass-weighted mean: the rotation
`p' = R (p - com) + com` with `R = Rz @ Ry @ Rx` preserves the center of
mass for every molecule and angle set, and preserves the unweighted
centroid when all masses are equal (then the two coincide); with unequal
masses the unweighted centroid moves (see the counterexample). -/
theorem c8_rotation_preserves_center_of_mass (P : MathPrims) (ang : Vec3)
    (m : Mol) (hlen : m.masses.length = m.pos.length) :
    (applyRotation P ang m).com = m.com ∧
    (∀ q : ℚ, q ≠ 0 → m.masses = List.replicate m.pos.length q →
      centroidSpec (applyRotation P ang m) = centroidSpec m) := by
  refine ⟨applyRotation_com_eq P ang m hlen, ?_⟩
  intro q hq hm
  have h1 : centroidSpec m = m.com := centroid_eq_com_of_replicate m q hq hm
  have h2 : centroidSpec (applyRotation P ang m) = (applyRotation P ang m).com :=
    centroid_eq_com_of_replicate _ q hq (by simp [applyRotation, hm])
  rw [h1, h2, applyRotation_com_eq P ang m hlen]

/-- C8 counterexample: two atoms of masses 1 and 3; a 180-degree rotation
about the z axis through the center of mass moves the unweighted centroid
from (1/2, 0, 0) to (1, 0, 0). -/
theorem c8_centroid_counterexample :
    centroidSpec (applyRotation P180 ⟨0, 0, 180⟩ molW) ≠ centroidSpec molW := by
  decide

/-- C8 witness: equal-mass molecule, same rotation: both the center of mass
and the unweighted centroid are preserved. -/
theorem c8_witness :
    (applyRotation P180 ⟨0, 0, 180⟩ molEq).com = molEq.com ∧
    centroidSpec (applyRotation P180 ⟨0, 0, 180⟩ molEq) = centroidSpec molEq := by
  have h := c8_rotation_preserves_center_of_mass P180 ⟨0, 0, 180⟩ molEq (by decide)
  exact ⟨h.1, h.2 2 (by decide) (by decide)⟩

/-! ## Preservation lemmas for the GA state machine -/

theorem evalOne_population (P : MathPrims) (cfg : GAConfig) (ec : Calc)
    (s : GAState) (r : Nat) :
    (evalOne P cfg ec s r).population = s.population := by
  unfold evalOne
  dsimp only
  rcases hE : (readDict s.heap r).energy with _ | e <;> simp only [hE]

theorem evalFold_population (P : MathPrims) (cfg : GAConfig) (ec : Calc) :
    ∀ (l : List Nat) (s : GAState),
      (l.foldl (evalOne P cfg ec) s).population = s.population
  | [], _ => rfl
  | r :: l, s => by
    rw [List.foldl_cons, evalFold_population P cfg ec l, evalOne_population]

theorem evalPopulation_population (P : MathPrims) (cfg : GAConfig) (ec : Calc)
    (s : GAState) :
    (evalPopulation P cfg ec s).population = s.population :=
  evalFold_population P cfg ec s.population s

theorem selectParent_spec (O : Oracle) (s : GAState) (p : GenomeD)
    (s' : GAState) (h : selectParent O s = .ok (p, s')) :
    s'.heap = s.heap ∧ s'.population = s.population ∧
    s'.fitness_history = s.fitness_history ∧ s'.best_energy = s.best_energy ∧
    s'.best_individual = s.best_individual ∧ s'.uCtr = s.uCtr ∧
    s'.nCtr = s.nCtr := by
  unfold selectParent at h
  dsimp only at h
  split at h
  · exact absurd h (by simp)
  · simp only [Except.ok.injEq, Prod.mk.injEq] at h
    obtain ⟨-, hs⟩ := h
    subst hs
    exact ⟨rfl, rfl, rfl, rfl, rfl, rfl, rfl⟩

theorem selectParent_ok (O : Oracle) (s : GAState)
    (h5 : 5 ≤ s.population.length) :
    ∃ p s', selectParent O s = .ok (p, s') := by
  unfold selectParent
  rw [if_neg (by omega)]
  exact ⟨_, _, rfl⟩

theorem mutateTors_dicts (O : Oracle) (tr : Nat) :
    ∀ (l : List Nat) (h : Heap) (u nn : Nat),
      (mutateTors O tr l h u nn).1.dicts = h.dicts
  | [], _, _, _ => rfl
  | i :: rest, h, u, nn => by
    unfold mutateTors
    split
    · rw [mutateTors_dicts O tr rest]
      rfl
    · exact mutateTors_dicts O tr rest h (u + 1) nn

theorem mutateG_spec (O : Oracle) (cfg : GAConfig) (s : GAState) (g : GenomeD) :
    (mutateG O cfg s g).2.population = s.population ∧
    (mutateG O cfg s g).2.fitness_history = s.fitness_history ∧
    (mutateG O cfg s g).2.best_energy = s.best_energy ∧
    (mutateG O cfg s g).2.best_individual = s.best_individual ∧
    (mutateG O cfg s g).2.heap.dicts = s.heap.dicts ∧
    (mutateG O cfg s g).1.energy = none := by
  unfold mutateG
  dsimp only
  split_ifs
  · exact ⟨rfl, rfl, rfl, rfl, rfl, rfl⟩
  · exact ⟨rfl, rfl, rfl, rfl, rfl, rfl⟩
  · exact ⟨rfl, rfl, rfl, rfl, mutateTors_dicts O g.torsRef _ _ _ _, rfl⟩

theorem crossoverG_spec (O : Oracle) (cfg : GAConfig) (s : GAState)
    (p1 p2 : GenomeD) :
    (crossoverG O cfg s p1 p2).2.population = s.population ∧
    (crossoverG O cfg s p1 p2).2.fitness_history = s.fitness_history ∧
    (crossoverG O cfg s p1 p2).2.best_energy = s.best_energy ∧
    (crossoverG O cfg s p1 p2).2.best_individual = s.best_individual ∧
    (crossoverG O cfg s p1 p2).2.heap.dicts = s.heap.dicts ∧
    (crossoverG O cfg s p1 p2).1.energy = none :=
  ⟨rfl, rfl, rfl, rfl, rfl, rfl⟩

theorem fillStep_spec (O : Oracle) (cfg : GAConfig) (s : GAState)
    (acc : List Nat) (s' : GAState) (acc' : List Nat)
    (h : fillStep O cfg s acc = .ok (s', acc')) :
    s'.population = s.population ∧ s'.fitness_history = s.fitness_history ∧
    s'.best_energy = s.best_energy ∧ s'.best_individual = s.best_individual ∧
    (∃ c, s'.heap.dicts = s.heap.dicts ++ [c] ∧ c.energy = none) ∧
    ∃ rd, acc' = acc ++ [rd] := by
  unfold fillStep at h
  dsimp only at h
  split at h
  · rcases h1 : selectParent O { s with uCtr := s.uCtr + 1 } with err | ⟨p1, s1⟩ <;>
      rw [h1] at h
    · exact absurd h (by simp)
    · dsimp only at h
      rcases h2 : selectParent O s1 with err | ⟨p2, s2⟩ <;> rw [h2] at h
      · exact absurd h (by simp)
      · dsimp only at h
        simp only [Except.ok.injEq, Prod.mk.injEq] at h
        obtain ⟨hs, ha⟩ := h
        obtain ⟨hh1, hp1, hf1, hb1, hi1, -, -⟩ :=
          selectParent_spec O _ p1 s1 h1
        obtain ⟨hh2, hp2, hf2, hb2, hi2, -, -⟩ := selectParent_spec O s1 p2 s2 h2
        obtain ⟨hxp, hxf, hxb, hxi, hxd, hxe⟩ := crossoverG_spec O cfg s2 p1 p2
        subst hs
        refine ⟨?_, ?_, ?_, ?_, ⟨_, ?_, hxe⟩, ⟨_, ha.symm⟩⟩
        · rw [show ({ (crossoverG O cfg s2 p1 p2).2 with
            heap := (allocDict (crossoverG O cfg s2 p1 p2).2.heap
              (crossoverG O cfg s2 p1 p2).1).1 } : GAState).population
            = (crossoverG O cfg s2 p1 p2).2.population from rfl, hxp, hp2, hp1]
        · rw [show ({ (crossoverG O cfg s2 p1 p2).2 with
            heap := (allocDict (crossoverG O cfg s2 p1 p2).2.heap
              (crossoverG O cfg s2 p1 p2).1).1 } : GAState).fitness_history
            = (crossoverG O cfg s2 p1 p2).2.fitness_history from rfl, hxf, hf2, hf1]
        · rw [show ({ (crossoverG O cfg s2 p1 p2).2 with
            heap := (allocDict (crossoverG O cfg s2 p1 p2).2.heap
              (crossoverG O cfg s2 p1 p2).1).1 } : GAState).best_energy
            = (crossoverG O cfg s2 p1 p2).2.best_energy from rfl, hxb, hb2, hb1]
        · rw [show ({ (crossoverG O cfg s2 p1 p2).2 with
            heap := (allocDict (crossoverG O cfg s2 p1 p2).2.heap
              (crossoverG O cfg s2 p1 p2).1).1 } : GAState).best_individual
            = (crossoverG O cfg s2 p1 p2).2.best_individual from rfl, hxi, hi2, hi1]
        · show (crossoverG O cfg s2 p1 p2).2.heap.dicts ++
            [(crossoverG O cfg s2 p1 p2).1] = s.heap.dicts ++ _
          rw [hxd, hh2, hh1]
  · rcases h1 : selectParent O { s with uCtr := s.uCtr + 1 } with err | ⟨p, s1⟩ <;>
      rw [h1] at h
    · exact absurd h (by simp)
    · dsimp only at h
      simp only [Except.ok.injEq, Prod.mk.injEq] at h
      obtain ⟨hs, ha⟩ := h
      obtain ⟨hh1, hp1, hf1, hb1, hi1, -, -⟩ := selectParent_spec O _ p s1 h1
      obtain ⟨hxp, hxf, hxb, hxi, hxd, hxe⟩ := mutateG_spec O cfg s1 p
      subst hs
      refine ⟨?_, ?_, ?_, ?_, ⟨_, ?_, hxe⟩, ⟨_, ha.symm⟩⟩
      · rw [show ({ (mutateG O cfg s1 p).2 with
          heap := (allocDict (mutateG O cfg s1 p).2.heap
            (mutateG O cfg s1 p).1).1 } : GAState).population
          = (mutateG O cfg s1 p).2.population from rfl, hxp, hp1]
      · rw [show ({ (mutateG O cfg s1 p).2 with
          heap := (allocDict (mutateG O cfg s1 p).2.heap
            (mutateG O cfg s1 p).1).1 } : GAState).fitness_history
          = (mutateG O cfg s1 p).2.fitness_history from rfl, hxf, hf1]
      · rw [show ({ (mutateG O cfg s1 p).2 with
          heap := (allocDict (mutateG O cfg s1 p).2.heap
            (mutateG O cfg s1 p).1).1 } : GAState).best_energy
          = (mutateG O cfg s1 p).2.best_energy from rfl, hxb, hb1]
      · rw [show ({ (mutateG O cfg s1 p).2 with
          heap := (allocDict (mutateG O cfg s1 p).2.heap
            (mutateG O cfg s1 p).1).1 } : GAState).best_individual
          = (mutateG O cfg s1 p).2.best_individual from rfl, hxi, hi1]
      · show (mutateG O cfg s1 p).2.heap.dicts ++ [(mutateG O cfg s1 p).1]
          = s.heap.dicts ++ _
        rw [hxd, hh1]

theorem fillStep_ok (O : Oracle) (cfg : GAConfig) (s : GAState)
    (acc : List Nat) (h5 : 5 ≤ s.population.length) :
    ∃ s' acc', fillStep O cfg s acc = .ok (s', acc') := by
  unfold fillStep
  dsimp only
  split
  · obtain ⟨p1, s1, h1⟩ := selectParent_ok O { s with uCtr := s.uCtr + 1 } h5
    rw [h1]
    dsimp only
    obtain ⟨-, hp1, -, -, -, -, -⟩ := selectParent_spec O _ p1 s1 h1
    obtain ⟨p2, s2, h2⟩ := selectParent_ok O s1 (by rw [hp1]; exact h5)
    rw [h2]
    exact ⟨_, _, rfl⟩
  · obtain ⟨p1, s1, h1⟩ := selectParent_ok O { s with uCtr := s.uCtr + 1 } h5
    rw [h1]
    exact ⟨_, _, rfl⟩

theorem fillLoop_spec (O : Oracle) (cfg : GAConfig) :
    ∀ (k : Nat) (s : GAState) (acc : List Nat) (s' : GAState)
      (acc' : List Nat), fillLoop O cfg k s acc = .ok (s', acc') →
    s'.population = s.population ∧ s'.fitness_history = s.fitness_history ∧
    s'.best_energy = s.best_energy ∧ s'.best_individual = s.best_individual ∧
    (∃ cs, s'.heap.dicts = s.heap.dicts ++ cs ∧ ∀ c ∈ cs, c.energy = none) ∧
    ∃ tl, acc' = acc ++ tl ∧ tl.length = k
  | 0, s, acc, s', acc', h => by
    simp only [fillLoop, Except.ok.injEq, Prod.mk.injEq] at h
    obtain ⟨hs, ha⟩ := h
    subst hs; subst ha
    exact ⟨rfl, rfl, rfl, rfl, ⟨[], by simp, by simp⟩, ⟨[], by simp, rfl⟩⟩
  | k + 1, s, acc, s', acc', h => by
    unfold fillLoop at h
    split at h
    · exact absurd h (by simp)
    · rename_i s1 acc1 heq
      obtain ⟨hp, hf, hb, hi, ⟨c, hd, hce⟩, ⟨rd, ha⟩⟩ :=
        fillStep_spec O cfg s acc s1 acc1 heq
      obtain ⟨hp', hf', hb', hi', ⟨cs, hd', hcs⟩, ⟨tl, ha', hlen⟩⟩ :=
        fillLoop_spec O cfg k s1 acc1 s' acc' h
      refine ⟨hp'.trans hp, hf'.trans hf, hb'.trans hb, hi'.trans hi,
        ⟨[c] ++ cs, ?_, ?_⟩, ⟨[rd] ++ tl, ?_, ?_⟩⟩
      · rw [hd', hd, List.append_assoc]
      · intro d hdm
        rcases List.mem_append.1 hdm with hl | hr
        · rw [List.mem_singleton.1 hl]; exact hce
        · exact hcs d hr
      · rw [ha', ha, List.append_assoc]
      · simp [hlen]

theorem fillLoop_ok (O : Oracle) (cfg : GAConfig) :
    ∀ (k : Nat) (s : GAState) (acc : List Nat),
      5 ≤ s.population.length →
      ∃ s' acc', fillLoop O cfg k s acc = .ok (s', acc')
  | 0, s, acc, _ => ⟨s, acc, rfl⟩
  | k + 1, s, acc, h5 => by
    obtain ⟨s1, acc1, h1⟩ := fillStep_ok O cfg s acc h5
    obtain ⟨hp, -, -, -, -, -⟩ := fillStep_spec O cfg s acc s1 acc1 h1
    obtain ⟨s', acc', h⟩ := fillLoop_ok O cfg k s1 acc1 (by rw [hp]; exact h5)
    refine ⟨s', acc', ?_⟩
    unfold fillLoop
    rw [h1]
    exact h

theorem sortPop_length (h : Heap) (pop : List Nat) :
    (sortPop h pop).length = pop.length :=
  (List.perm_insertionSort _ _).length_eq

theorem selectionCM_spec (O : Oracle) (cfg : GAConfig) (s s' : GAState)
    (h : selectionCM O cfg s = .ok s') :
    s'.fitness_history = s.fitness_history ∧
    s'.best_energy = s.best_energy ∧
    s'.best_individual = s.best_individual ∧
    (∃ cs, s'.heap.dicts = s.heap.dicts ++ cs ∧ ∀ c ∈ cs, c.energy = none) ∧
    (s.population.length = cfg.population_size →
      s'.population.length = cfg.population_size) := by
  unfold selectionCM at h
  dsimp only at h
  split at h
  · exact absurd h (by simp)
  · rename_i s2 acc2 heq
    simp only [Except.ok.injEq] at h
    subst h
    obtain ⟨hp, hf, hb, hi, ⟨cs, hd, hcs⟩, ⟨tl, ha, hlen⟩⟩ :=
      fillLoop_spec O cfg _ _ _ s2 acc2 heq
    refine ⟨hf, hb, hi, ⟨cs, hd, hcs⟩, ?_⟩
    intro hL
    show acc2.length = cfg.population_size
    rw [ha, List.length_append, hlen, List.length_take, sortPop_length, hL]
    omega

theorem selectionCM_ok (O : Oracle) (cfg : GAConfig) (s : GAState)
    (hwf : 5 ≤ cfg.population_size ∨ cfg.population_size ≤ cfg.elite_size)
    (hL : s.population.length = cfg.population_size) :
    ∃ s', selectionCM O cfg s = .ok s' := by
  unfold selectionCM
  dsimp only
  rcases hwf with h5 | hel
  · obtain ⟨s2, acc2, hf⟩ := fillLoop_ok O cfg
      (cfg.population_size -
        ((sortPop s.heap s.population).take cfg.elite_size).length)
      { s with population := sortPop s.heap s.population }
      ((sortPop s.heap s.population).take cfg.elite_size)
      (by show 5 ≤ (sortPop s.heap s.population).length
          rw [sortPop_length, hL]; exact h5)
    rw [hf]
    exact ⟨_, rfl⟩
  · have hk : cfg.population_size -
        ((sortPop s.heap s.population).take cfg.elite_size).length = 0 := by
      rw [List.length_take, sortPop_length, hL]
      omega
    rw [hk]
    exact ⟨_, rfl⟩

theorem readDict_mem_or_default (h : Heap) (r : Nat) :
    readDict h r ∈ h.dicts ∨ readDict h r = dfltG := by
  unfold readDict
  by_cases hr : r < h.dicts.length
  · left
    rw [List.getD_eq_getElem h.dicts dfltG hr]
    exact List.getElem_mem hr
  · right
    exact List.getD_eq_default h.dicts dfltG (by omega)

theorem evalOne_InvE (P : MathPrims) (cfg : GAConfig) (ec : Calc) (e0 : ℚ)
    (hCE : ∀ pos ori tors, (calculateEnergy P cfg ec pos ori tors).1 = e0)
    (s : GAState) (r : Nat) (hinv : InvE e0 s) :
    InvE e0 (evalOne P cfg ec s r) ∧
    (s.best_energy = some e0 → (evalOne P cfg ec s r).best_energy = some e0) ∧
    (s.best_energy = none → (evalOne P cfg ec s r).best_energy = some e0) := by
  unfold evalOne
  dsimp only
  rcases hE : (readDict s.heap r).energy with _ | e
  · simp only [hE]
    have hres : (calculateEnergy P cfg ec (readArr s.heap (readDict s.heap r).posRef)
        (readArr s.heap (readDict s.heap r).oriRef)
        (readArr s.heap (readDict s.heap r).torsRef)).1 = e0 := hCE _ _ _
    rw [hres]
    have hhist : ∀ x ∈ s.fitness_history ++ [e0], x = e0 := by
      intro x hx
      rcases List.mem_append.1 hx with hl | hr
      · exact hinv.1 x hl
      · simpa using hr
    rcases hbe : s.best_energy with _ | b
    · have himp : energyLt e0 none = true := rfl
      rw [himp]
      exact ⟨⟨hhist, Or.inl rfl⟩, fun hc => Option.noConfusion hc, fun _ => rfl⟩
    · have hb : b = e0 := by
        rcases hinv.2 with hl | hr
        · rw [hbe] at hl
          exact Option.some.inj hl
        · rw [hbe] at hr
          exact absurd hr.1 (by simp)
      have himp : energyLt e0 (some b) = false := by
        simp [energyLt, hb]
      rw [himp]
      exact ⟨⟨hhist, Or.inl (by simp [hb])⟩, fun _ => by simp [hb],
        fun hc => Option.noConfusion hc⟩
  · simp only [hE]
    refine ⟨hinv, fun hb => hb, fun hb => ?_⟩
    exfalso
    rcases hinv.2 with hl | ⟨-, hall⟩
    · rw [hb] at hl
      exact Option.noConfusion hl
    · rcases readDict_mem_or_default s.heap r with hm | hd
      · have := hall _ hm
        rw [hE] at this
        exact Option.noConfusion this
      · rw [hd] at hE
        exact Option.noConfusion hE

theorem evalFold_InvE (P : MathPrims) (cfg : GAConfig) (ec : Calc) (e0 : ℚ)
    (hCE : ∀ pos ori tors, (calculateEnergy P cfg ec pos ori tors).1 = e0) :
    ∀ (l : List Nat) (s : GAState), InvE e0 s →
      InvE e0 (l.foldl (evalOne P cfg ec) s)
  | [], _, hinv => hinv
  | r :: l, s, hinv => by
    rw [List.foldl_cons]
    exact evalFold_InvE P cfg ec e0 hCE l _
      (evalOne_InvE P cfg ec e0 hCE s r hinv).1

theorem evalFold_keep_some (P : MathPrims) (cfg : GAConfig) (ec : Calc)
    (e0 : ℚ)
    (hCE : ∀ pos ori tors, (calculateEnergy P cfg ec pos ori tors).1 = e0) :
    ∀ (l : List Nat) (s : GAState), InvE e0 s → s.best_energy = some e0 →
      (l.foldl (evalOne P cfg ec) s).best_energy = some e0
  | [], _, _, hb => hb
  | r :: l, s, hinv, hb => by
    rw [List.foldl_cons]
    exact evalFold_keep_some P cfg ec e0 hCE l _
      (evalOne_InvE P cfg ec e0 hCE s r hinv).1
      ((evalOne_InvE P cfg ec e0 hCE s r hinv).2.1 hb)

theorem evalPop_establishes (P : MathPrims) (cfg : GAConfig) (ec : Calc)
    (e0 : ℚ)
    (hCE : ∀ pos ori tors, (calculateEnergy P cfg ec pos ori tors).1 = e0)
    (s : GAState) (hinv : InvE e0 s) (hne : s.population ≠ []) :
    (evalPopulation P cfg ec s).best_energy = some e0 ∧
    InvE e0 (evalPopulation P cfg ec s) := by
  unfold evalPopulation
  rcases hpop : s.population with _ | ⟨r, l⟩
  · exact absurd hpop hne
  · rw [List.foldl_cons]
    obtain ⟨hinv1, hsome, hnone⟩ := evalOne_InvE P cfg ec e0 hCE s r hinv
    have hb1 : (evalOne P cfg ec s r).best_energy = some e0 := by
      rcases hinv.2 with hl | hr
      · exact hsome hl
      · exact hnone hr.1
    exact ⟨evalFold_keep_some P cfg ec e0 hCE l _ hinv1 hb1,
      evalFold_InvE P cfg ec e0 hCE l _ hinv1⟩

theorem initOne_spec (O : Oracle) (cfg : GAConfig) (s : GAState) :
    (initOne O cfg s).population.length = s.population.length + 1 ∧
    (initOne O cfg s).fitness_history = s.fitness_history ∧
    (initOne O cfg s).best_energy = s.best_energy ∧
    (initOne O cfg s).best_individual = s.best_individual ∧
    ((∀ d ∈ s.heap.dicts, d.energy = none) →
      ∀ d ∈ (initOne O cfg s).heap.dicts, d.energy = none) := by
  unfold initOne
  dsimp only
  refine ⟨by simp, rfl, rfl, rfl, ?_⟩
  intro hall d hd
  rcases List.mem_append.1 hd with hl | hr
  · exact hall d hl
  · rw [List.mem_singleton.1 hr]

theorem initFold_spec (O : Oracle) (cfg : GAConfig) :
    ∀ (l : List Nat) (s : GAState),
    ((l.foldl (fun s _ => initOne O cfg s) s).population.length
      = s.population.length + l.length) ∧
    (l.foldl (fun s _ => initOne O cfg s) s).fitness_history
      = s.fitness_history ∧
    (l.foldl (fun s _ => initOne O cfg s) s).best_energy = s.best_energy ∧
    (l.foldl (fun s _ => initOne O cfg s) s).best_individual
      = s.best_individual ∧
    ((∀ d ∈ s.heap.dicts, d.energy = none) →
      ∀ d ∈ (l.foldl (fun s _ => initOne O cfg s) s).heap.dicts,
        d.energy = none)
  | [], s => ⟨rfl, rfl, rfl, rfl, fun h => h⟩
  | _ :: l, s => by
    rw [List.foldl_cons]
    obtain ⟨h1, h2, h3, h4, h5⟩ := initOne_spec O cfg s
    obtain ⟨g1, g2, g3, g4, g5⟩ := initFold_spec O cfg l (initOne O cfg s)
    refine ⟨?_, g2.trans h2, g3.trans h3, g4.trans h4, fun h => g5 (h5 h)⟩
    rw [g1, h1, List.length_cons]
    omega

theorem initPopulation_spec (O : Oracle) (cfg : GAConfig) :
    (initPopulation O cfg).population.length = cfg.population_size ∧
    (initPopulation O cfg).fitness_history = [] ∧
    (initPopulation O cfg).best_energy = none ∧
    (initPopulation O cfg).best_individual = none ∧
    ∀ d ∈ (initPopulation O cfg).heap.dicts, d.energy = none := by
  obtain ⟨h1, h2, h3, h4, h5⟩ :=
    initFold_spec O cfg (List.range cfg.population_size) initState
  refine ⟨?_, h2, h3, h4, h5 (by intro d hd; cases hd)⟩
  show (List.foldl (fun s _ => initOne O cfg s) initState
      (List.range cfg.population_size)).population.length = cfg.population_size
  rw [h1]
  simp [initState]

theorem gaLoop_const (P : MathPrims) (cfg : GAConfig) (ec : Calc) (O : Oracle)
    (e0 : ℚ)
    (hCE : ∀ pos ori tors, (calculateEnergy P cfg ec pos ori tors).1 = e0)
    (hwf : 5 ≤ cfg.population_size ∨ cfg.population_size ≤ cfg.elite_size) :
    ∀ (g : Nat) (s : GAState), InvE e0 s → s.best_energy = some e0 →
      s.population.length = cfg.population_size →
      ∃ s', gaLoop P cfg ec O g s = .ok s' ∧ s'.best_energy = some e0 ∧
        ∀ x ∈ s'.fitness_history, x = e0
  | 0, s, hinv, hb, _ => ⟨s, rfl, hb, hinv.1⟩
  | g + 1, s, hinv, hb, hL => by
    have hinv1 : InvE e0 (evalPopulation P cfg ec s) :=
      evalFold_InvE P cfg ec e0 hCE s.population s hinv
    have hb1 : (evalPopulation P cfg ec s).best_energy = some e0 :=
      evalFold_keep_some P cfg ec e0 hCE s.population s hinv hb
    have hL1 : (evalPopulation P cfg ec s).population.length
        = cfg.population_size := by
      rw [evalPopulation_population]
      exact hL
    obtain ⟨s2, hsel⟩ := selectionCM_ok O cfg (evalPopulation P cfg ec s) hwf hL1
    obtain ⟨hf2, hb2, -, ⟨cs, hd2, hcs⟩, hL2⟩ :=
      selectionCM_spec O cfg (evalPopulation P cfg ec s) s2 hsel
    have hinv2 : InvE e0 s2 := And.intro (by rw [hf2]; exact hinv1.1)
      (Or.inl (by rw [hb2]; exact hb1))
    obtain ⟨s', hloop, hbf, hhf⟩ := gaLoop_const P cfg ec O e0 hCE hwf g s2
      hinv2 (by rw [hb2]; exact hb1) (hL2 hL1)
    refine ⟨s', ?_, hbf, hhf⟩
    unfold gaLoop
    rw [hsel]
    exact hloop

theorem runGA_const (P : MathPrims) (cfg : GAConfig) (ec : Calc) (O : Oracle)
    (e0 : ℚ)
    (hCE : ∀ pos ori tors, (calculateEnergy P cfg ec pos ori tors).1 = e0)
    (hp : 1 ≤ cfg.population_size) (hg : 1 ≤ cfg.generations)
    (hwf : 5 ≤ cfg.population_size ∨ cfg.population_size ≤ cfg.elite_size) :
    ∃ r, runGA P cfg ec O = .ok r ∧ r.best_energy = some e0 ∧
      ∀ x ∈ r.fitness_history, x = e0 := by
  obtain ⟨hL0, hh0, hb0, hi0, hd0⟩ := initPopulation_spec O cfg
  have hinv0 : InvE e0 (initPopulation O cfg) :=
    And.intro (by rw [hh0]; intro x hx; cases hx) (Or.inr (And.intro hb0 hd0))
  have hne0 : (initPopulation O cfg).population ≠ [] := by
    intro hnil
    rw [hnil] at hL0
    simp at hL0
    omega
  obtain ⟨hb1, hinv1⟩ :=
    evalPop_establishes P cfg ec e0 hCE (initPopulation O cfg) hinv0 hne0
  have hL1 : (evalPopulation P cfg ec (initPopulation O cfg)).population.length
      = cfg.population_size := by
    rw [evalPopulation_population]
    exact hL0
  obtain ⟨s2, hsel⟩ := selectionCM_ok O cfg _ hwf hL1
  obtain ⟨hf2, hb2, -, -, hL2⟩ := selectionCM_spec O cfg _ s2 hsel
  have hinv2 : InvE e0 s2 := And.intro (by rw [hf2]; exact hinv1.1)
    (Or.inl (by rw [hb2]; exact hb1))
  rcases hgen : cfg.generations with _ | g
  · rw [hgen] at hg
    omega
  · obtain ⟨s', hloop, hbf, hhf⟩ := gaLoop_const P cfg ec O e0 hCE hwf g s2
      hinv2 (by rw [hb2]; exact hb1) (hL2 hL1)
    refine ⟨getResults cfg s', ?_, hbf, hhf⟩
    unfold runGA
    rw [hgen]
    unfold gaLoop
    rw [hsel]
    dsimp only
    rw [hloop]

/-- Every evaluation under an always-failing calculator yields the penalty
    pair: either structure creation or the energy call raises, and the
    `try` block converts both into 1000.0 with no cached structure. -/
theorem calculateEnergy_fail (P : MathPrims) (cfg : GAConfig) (ec : Calc)
    (hcalc : ∀ m, ec m = .error ()) (pos ori tors : List ℚ) :
    calculateEnergy P cfg ec pos ori tors = (1000, none) := by
  unfold calculateEnergy
  rcases h : createSystem P cfg pos ori tors with err | sys <;> simp [h, hcalc]

/-- C2: the claim states that with a calculator failing on every
invocation, every fitness evaluation returns the penalty 1000.0, the run
completes without raising, and the returned best energy equals the
sentinel.  The evaluation part holds unconditionally; run completion
additionally requires the reproduction step to be well-formed (population
at least the hard-coded tournament size 5, or fully covered by elitism),
because `np.random.choice(n, 5, replace=False)` raises for `n < 5`
regardless of the calculator (see the counterexample). -/
theorem c2_penalty_containment (P : MathPrims) (cfg : GAConfig) (ec : Calc)
    (O : Oracle) (hcalc : ∀ m, ec m = .error ())
    (hp : 1 ≤ cfg.population_size) (hg : 1 ≤ cfg.generations)
    (hwf : 5 ≤ cfg.population_size ∨ cfg.population_size ≤ cfg.elite_size) :
    (∀ pos ori tors, calculateEnergy P cfg ec pos ori tors = (1000, none)) ∧
    ∃ r, runGA P cfg ec O = .ok r ∧ r.best_energy = some 1000 ∧
      ∀ x ∈ r.fitness_history, x = 1000 := by
  refine ⟨calculateEnergy_fail P cfg ec hcalc, ?_⟩
  exact runGA_const P cfg ec O 1000
    (fun pos ori tors => by rw [calculateEnergy_fail P cfg ec hcalc])
    hp hg hwf

/-- C2 counterexample: population 4 with elite 2 and an always-failing
calculator; the run raises out of tournament selection instead of
completing with the penalty sentinel. -/
theorem c2_counterexample :
    runGA P0 cfgC2x calcFail O0 = .error .choiceTooBig := by
  decide

/-- C2 witness: a population of 1 carried by elitism under the failing
calculator; the run completes with best energy 1000 and history [1000]. -/
theorem c2_witness :
    (∀ pos ori tors,
      calculateEnergy P0 cfgC2w calcFail pos ori tors = (1000, none)) ∧
    ∃ r, runGA P0 cfgC2w calcFail O0 = .ok r ∧ r.best_energy = some 1000 ∧
      ∀ x ∈ r.fitness_history, x = 1000 :=
  c2_penalty_containment P0 cfgC2w calcFail O0 (fun _ => rfl)
    (by decide) (by decide) (by decide)

theorem evalOne_pair_mono (P : MathPrims) (cfg : GAConfig) (ec : Calc)
    (s : GAState) (r : Nat)
    (hpair : s.best_energy.isSome ∧ s.best_individual.isSome) :
    (evalOne P cfg ec s r).best_energy.isSome ∧
    (evalOne P cfg ec s r).best_individual.isSome := by
  unfold evalOne
  dsimp only
  rcases hE : (readDict s.heap r).energy with _ | e
  · simp only [hE]
    rcases himp : energyLt (calculateEnergy P cfg ec
        (readArr s.heap (readDict s.heap r).posRef)
        (readArr s.heap (readDict s.heap r).oriRef)
        (readArr s.heap (readDict s.heap r).torsRef)).1 s.best_energy with _ | _
    · simpa using hpair
    · simp
  · simp only [hE]
    exact hpair

theorem evalOne_pair_establish (P : MathPrims) (cfg : GAConfig) (ec : Calc)
    (s : GAState) (r : Nat) (hb : s.best_energy = none)
    (hE : (readDict s.heap r).energy = none) :
    (evalOne P cfg ec s r).best_energy.isSome ∧
    (evalOne P cfg ec s r).best_individual.isSome := by
  unfold evalOne
  dsimp only
  simp only [hE, hb]
  have himp : energyLt (calculateEnergy P cfg ec
      (readArr s.heap (readDict s.heap r).posRef)
      (readArr s.heap (readDict s.heap r).oriRef)
      (readArr s.heap (readDict s.heap r).torsRef)).1 none = true := rfl
  rw [himp]
  simp

theorem evalFold_pair_mono (P : MathPrims) (cfg : GAConfig) (ec : Calc) :
    ∀ (l : List Nat) (s : GAState),
      s.best_energy.isSome ∧ s.best_individual.isSome →
      (l.foldl (evalOne P cfg ec) s).best_energy.isSome ∧
      (l.foldl (evalOne P cfg ec) s).best_individual.isSome
  | [], _, hpair => hpair
  | r :: l, s, hpair => by
    rw [List.foldl_cons]
    exact evalFold_pair_mono P cfg ec l _ (evalOne_pair_mono P cfg ec s r hpair)

theorem gaLoop_total (P : MathPrims) (cfg : GAConfig) (ec : Calc) (O : Oracle)
    (hwf : 5 ≤ cfg.population_size ∨ cfg.population_size ≤ cfg.elite_size) :
    ∀ (g : Nat) (s : GAState),
      s.best_energy.isSome ∧ s.best_individual.isSome →
      s.population.length = cfg.population_size →
      ∃ s', gaLoop P cfg ec O g s = .ok s' ∧
        s'.best_energy.isSome ∧ s'.best_individual.isSome
  | 0, s, hpair, _ => ⟨s, rfl, hpair⟩
  | g + 1, s, hpair, hL => by
    have hpair1 := evalFold_pair_mono P cfg ec s.population s hpair
    have hL1 : (evalPopulation P cfg ec s).population.length
        = cfg.population_size := by
      rw [evalPopulation_population]; exact hL
    obtain ⟨s2, hsel⟩ := selectionCM_ok O cfg (evalPopulation P cfg ec s) hwf hL1
    obtain ⟨-, hb2, hi2, -, hL2⟩ :=
      selectionCM_spec O cfg (evalPopulation P cfg ec s) s2 hsel
    obtain ⟨s', hloop, hpf⟩ := gaLoop_total P cfg ec O hwf g s2
      ⟨by rw [hb2]; exact hpair1.1, by rw [hi2]; exact hpair1.2⟩ (hL2 hL1)
    refine ⟨s', ?_, hpf⟩
    unfold gaLoop
    rw [hsel]
    exact hloop

/-- C4: the claim states that every configuration with population at least
1 and at least one generation terminates normally for every calculator,
returning a best energy and best individual.  This holds under the
additional proviso that the reproduction step is well-formed (population
at least the hard-coded tournament size 5, or fully covered by elitism);
otherwise `np.random.choice(len(population), 5, replace=False)` raises
ValueError inside the generation loop (see the counterexample). -/
theorem c4_run_terminates (P : MathPrims) (cfg : GAConfig) (ec : Calc)
    (O : Oracle) (hp : 1 ≤ cfg.population_size) (hg : 1 ≤ cfg.generations)
    (hwf : 5 ≤ cfg.population_size ∨ cfg.population_size ≤ cfg.elite_size) :
    ∃ r, runGA P cfg ec O = .ok r ∧ r.best_energy.isSome ∧
      r.best_individual.isSome := by
  obtain ⟨hL0, hh0, hb0, hi0, hd0⟩ := initPopulation_spec O cfg
  rcases hpop : (initPopulation O cfg).population with _ | ⟨r0, l0⟩
  · rw [hpop] at hL0
    simp at hL0
    omega
  · have hE0 : (readDict (initPopulation O cfg).heap r0).energy = none := by
      rcases readDict_mem_or_default (initPopulation O cfg).heap r0 with hm | hd
      · exact hd0 _ hm
      · rw [hd]
        rfl
    have hpair1 : (evalPopulation P cfg ec (initPopulation O cfg)).best_energy.isSome ∧
        (evalPopulation P cfg ec (initPopulation O cfg)).best_individual.isSome := by
      unfold evalPopulation
      rw [hpop, List.foldl_cons]
      exact evalFold_pair_mono P cfg ec l0 _
        (evalOne_pair_establish P cfg ec (initPopulation O cfg) r0 hb0 hE0)
    have hL1 : (evalPopulation P cfg ec (initPopulation O cfg)).population.length
        = cfg.population_size := by
      rw [evalPopulation_population]; exact hL0
    obtain ⟨s2, hsel⟩ := selectionCM_ok O cfg _ hwf hL1
    obtain ⟨-, hb2, hi2, -, hL2⟩ := selectionCM_spec O cfg _ s2 hsel
    rcases hgen : cfg.generations with _ | g
    · rw [hgen] at hg
      omega
    · obtain ⟨s', hloop, hpf⟩ := gaLoop_total P cfg ec O hwf g s2
        ⟨by rw [hb2]; exact hpair1.1, by rw [hi2]; exact hpair1.2⟩ (hL2 hL1)
      refine ⟨getResults cfg s', ?_, hpf.1, hpf.2⟩
      unfold runGA
      rw [hgen]
      unfold gaLoop
      rw [hsel]
      dsimp only
      rw [hloop]

/-- C4 counterexample: population 3 with elite 1, a perfectly healthy
constant calculator, one generation: the run raises ValueError out of the
tournament selection inside the generation loop. -/
theorem c4_counterexample :
    runGA P0 cfgC4x (calcConst 5) O0 = .error .choiceTooBig := by
  decide

/-- C4 witness: population 2 fully covered by elitism; the run terminates
normally with a best energy and best individual on record. -/
theorem c4_witness :
    ∃ r, runGA P0 cfgC4w (calcConst (-1)) O0 = .ok r ∧
      r.best_energy.isSome ∧ r.best_individual.isSome :=
  c4_run_terminates P0 cfgC4w (calcConst (-1)) O0
    (by decide) (by decide) (by decide)

theorem createSystem_noBonds (P : MathPrims) (cfg : GAConfig)
    (hb : cfg.bonds = []) (pos ori tors : List ℚ) :
    ∃ sys, createSystem P cfg pos ori tors = .ok sys := by
  unfold createSystem
  rw [hb]
  exact ⟨_, rfl⟩

/-- C7: the fitness assigned on a successful evaluation is the calculator's
total energy of the assembled system minus the sum of the two reference
energies, and the realized structure is cached; consequently, for a rigid
molecule with a constant calculator stub `E0` and zero reference energies,
a (well-formed, nonempty) run scores every evaluated genome at `E0` and
returns best energy `E0`. -/
theorem c7_adsorption_energy (P : MathPrims) (cfg : GAConfig) (ec : Calc)
    (O : Oracle) (E0 : ℚ) :
    (∀ pos ori tors E sys, createSystem P cfg pos ori tors = .ok sys →
      ec sys = .ok E →
      calculateEnergy P cfg ec pos ori tors
        = (E - (cfg.surface_energy + cfg.molecule_energy), some sys)) ∧
    (cfg.bonds = [] → cfg.surface_energy = 0 → cfg.molecule_energy = 0 →
      (∀ m, ec m = .ok E0) →
      1 ≤ cfg.population_size → 1 ≤ cfg.generations →
      (5 ≤ cfg.population_size ∨ cfg.population_size ≤ cfg.elite_size) →
      ∃ r, runGA P cfg ec O = .ok r ∧ r.best_energy = some E0 ∧
        ∀ x ∈ r.fitness_history, x = E0) := by
  constructor
  · intro pos ori tors E sys hsys hE
    unfold calculateEnergy
    rw [hsys]
    dsimp only
    rw [hE]
  · intro hb hse hme hc hp hg hwf
    have hCE : ∀ pos ori tors,
        (calculateEnergy P cfg ec pos ori tors).1 = E0 := by
      intro pos ori tors
      obtain ⟨sys, hsys⟩ := createSystem_noBonds P cfg hb pos ori tors
      unfold calculateEnergy
      rw [hsys]
      dsimp only
      rw [hc sys, hse, hme]
      simp
    exact runGA_const P cfg ec O E0 hCE hp hg hwf

/-- C7 witness: one-atom surface and molecule, constant stub energy -2,
zero references, population 1, one generation: the evaluation pair is
(-2, cached structure) and the run's best energy and whole history
equal -2. -/
theorem c7_witness :
    (∃ sys, createSystem P0 cfgC7w [0, 0, 0] [0, 0, 0] [] = .ok sys ∧
      calculateEnergy P0 cfgC7w (calcConst (-2)) [0, 0, 0] [0, 0, 0] []
        = (-2, some sys)) ∧
    ∃ r, runGA P0 cfgC7w (calcConst (-2)) O0 = .ok r ∧
      r.best_energy = some (-2) ∧ ∀ x ∈ r.fitness_history, x = -2 := by
  have h := c7_adsorption_energy P0 cfgC7w (calcConst (-2)) O0 (-2)
  constructor
  · refine ⟨⟨[1, 1], [Vec3.zero, Vec3.zero]⟩, by decide, ?_⟩
    have h1 := h.1 [0, 0, 0] [0, 0, 0] [] (-2) ⟨[1, 1], [Vec3.zero, Vec3.zero]⟩
      (by decide) rfl
    rw [h1]
    norm_num [cfgC7w, mkCfg]
  · exact h.2 rfl rfl rfl (fun _ => rfl) (by decide) (by decide) (by decide)

theorem HeapExt.extRfl (h : Heap) : HeapExt h h :=
  ⟨Nat.le_refl _, Nat.le_refl _, fun _ _ => rfl, fun _ _ => rfl⟩

theorem HeapExt.extTrans {h1 h2 h3 : Heap} (a : HeapExt h1 h2)
    (b : HeapExt h2 h3) : HeapExt h1 h3 := by
  obtain ⟨a1, a2, a3, a4⟩ := a
  obtain ⟨b1, b2, b3, b4⟩ := b
  refine ⟨a1.trans b1, a2.trans b2, fun x hx => ?_, fun d hd => ?_⟩
  · rw [b3 x (by omega), a3 x hx]
  · rw [b4 d (by omega), a4 d hd]

theorem allocArr_ext (h : Heap) (v : List ℚ) : HeapExt h (allocArr h v).1 := by
  refine ⟨by simp [allocArr], by simp [allocArr], fun a ha => ?_, fun d _ => rfl⟩
  show (h.arrs ++ [v]).getD a [] = h.arrs.getD a []
  exact List.getD_append _ _ _ _ ha

theorem allocDict_ext (h : Heap) (g : GenomeD) :
    HeapExt h (allocDict h g).1 := by
  refine ⟨by simp [allocDict], by simp [allocDict], fun a _ => rfl, fun d hd => ?_⟩
  show (h.dicts ++ [g]).getD d dfltG = h.dicts.getD d dfltG
  exact List.getD_append _ _ _ _ hd

theorem crossoverG_ext (O : Oracle) (cfg : GAConfig) (s : GAState)
    (p1 p2 : GenomeD) : HeapExt s.heap (crossoverG O cfg s p1 p2).2.heap :=
  (allocArr_ext s.heap _).extTrans
    ((allocArr_ext _ _).extTrans (allocArr_ext _ _))

theorem fillStep_ext (O : Oracle) (cfg : GAConfig) (s : GAState)
    (acc : List Nat) (s' : GAState) (acc' : List Nat)
    (hx : O.unif s.uCtr < cfg.crossover_rate)
    (h : fillStep O cfg s acc = .ok (s', acc')) :
    HeapExt s.heap s'.heap := by
  unfold fillStep at h
  dsimp only at h
  rw [if_pos hx] at h
  rcases h1 : selectParent O { s with uCtr := s.uCtr + 1 } with err | ⟨p1, s1⟩ <;>
    rw [h1] at h
  · exact absurd h (by simp)
  · dsimp only at h
    rcases h2 : selectParent O s1 with err | ⟨p2, s2⟩ <;> rw [h2] at h
    · exact absurd h (by simp)
    · dsimp only at h
      simp only [Except.ok.injEq, Prod.mk.injEq] at h
      obtain ⟨hs, -⟩ := h
      obtain ⟨hh1, -, -, -, -, -, -⟩ := selectParent_spec O _ p1 s1 h1
      obtain ⟨hh2, -, -, -, -, -, -⟩ := selectParent_spec O s1 p2 s2 h2
      subst hs
      have hx2 : HeapExt s.heap (crossoverG O cfg s2 p1 p2).2.heap := by
        have := crossoverG_ext O cfg s2 p1 p2
        rw [hh2, hh1] at this
        exact this
      exact hx2.extTrans (allocDict_ext _ _)

theorem fillLoop_ext (O : Oracle) (cfg : GAConfig)
    (hx : ∀ n, O.unif n < cfg.crossover_rate) :
    ∀ (k : Nat) (s : GAState) (acc : List Nat) (s' : GAState)
      (acc' : List Nat), fillLoop O cfg k s acc = .ok (s', acc') →
      HeapExt s.heap s'.heap
  | 0, s, acc, s', acc', h => by
    simp only [fillLoop, Except.ok.injEq, Prod.mk.injEq] at h
    rw [← h.1]
    exact HeapExt.extRfl s.heap
  | k + 1, s, acc, s', acc', h => by
    unfold fillLoop at h
    split at h
    · exact absurd h (by simp)
    · rename_i s1 acc1 heq
      exact (fillStep_ext O cfg s acc s1 acc1 (hx s.uCtr) heq).extTrans
        (fillLoop_ext O cfg hx k s1 acc1 s' acc' h)

/-- C5: the claim states that after one reproduction step the first
`elite_size` slots hold the `elite_size` lowest-energy genomes of the
current generation unchanged by value.  The slots do hold exactly the
lowest-energy dicts (sorted stably by energy) with their cached energies,
and their arrays are untouched provided every refill takes the crossover
branch, which only allocates; a refill that takes the mutation branch can
perturb an elite's arrays in place through the aliasing of the shallow
parent copy (see the counterexample), which is the needed amendment. -/
theorem c5_elitism_crossover_only (O : Oracle) (cfg : GAConfig)
    (s s' : GAState) (hx : ∀ n, O.unif n < cfg.crossover_rate)
    (hel : cfg.elite_size ≤ s.population.length) (hval : ValidState s)
    (hok : selectionCM O cfg s = .ok s') :
    s'.population.take cfg.elite_size
      = (sortPop s.heap s.population).take cfg.elite_size ∧
    (sortPop s.heap s.population).Perm s.population ∧
    List.Sorted (fun a b => keyE s.heap a ≤ keyE s.heap b)
      (sortPop s.heap s.population) ∧
    ∀ r ∈ (sortPop s.heap s.population).take cfg.elite_size,
      readDict s'.heap r = readDict s.heap r ∧
      readArr s'.heap (readDict s.heap r).posRef
        = readArr s.heap (readDict s.heap r).posRef ∧
      readArr s'.heap (readDict s.heap r).oriRef
        = readArr s.heap (readDict s.heap r).oriRef ∧
      readArr s'.heap (readDict s.heap r).torsRef
        = readArr s.heap (readDict s.heap r).torsRef := by
  unfold selectionCM at hok
  dsimp only at hok
  split at hok
  · exact absurd hok (by simp)
  · rename_i s2 acc2 heq
    simp only [Except.ok.injEq] at hok
    subst hok
    have hext : HeapExt s.heap s2.heap :=
      fillLoop_ext O cfg hx _
        { s with population := sortPop s.heap s.population } _ s2 acc2 heq
    obtain ⟨-, -, -, -, -, ⟨tl, ha, -⟩⟩ := fillLoop_spec O cfg _ _ _ s2 acc2 heq
    have hlen : ((sortPop s.heap s.population).take cfg.elite_size).length
        = cfg.elite_size := by
      rw [List.length_take, sortPop_length]
      omega
    refine ⟨?_, List.perm_insertionSort _ _, ?_, ?_⟩
    · show acc2.take cfg.elite_size = _
      rw [ha, List.take_left' hlen]
    · haveI hto : IsTotal Nat (fun a b => keyE s.heap a ≤ keyE s.heap b) :=
        ⟨fun a b => le_total _ _⟩
      haveI htr : IsTrans Nat (fun a b => keyE s.heap a ≤ keyE s.heap b) :=
        ⟨fun a b c hab hbc => le_trans hab hbc⟩
      exact List.sorted_insertionSort _ _
    · intro r hr
      have hrmem : r ∈ s.population := by
        have hr1 : r ∈ sortPop s.heap s.population := List.mem_of_mem_take hr
        exact (List.perm_insertionSort _ _).mem_iff.1 hr1
      obtain ⟨hrd, hp, ho, ht⟩ := hval r hrmem
      obtain ⟨-, -, harr, hdict⟩ := hext
      exact ⟨hdict r hrd, harr _ hp, harr _ ho, harr _ ht⟩

/-- C5 counterexample: population 5, elite 2, crossover rate 0 (every
refill mutates): after one reproduction step the first elite slot holds
the same dict with its cached energy, but its position array has been
perturbed in place by the mutation of a selected parent copy, so the
elites are not carried unchanged by value. -/
theorem c5_counterexample :
    selectionCM O0 cfgC5 s2c5 = .ok s3c5 ∧
    s3c5.population.take cfgC5.elite_size
      = (sortPop s2c5.heap s2c5.population).take cfgC5.elite_size ∧
    (readDict s3c5.heap eliteRef5).energy
      = (readDict s2c5.heap eliteRef5).energy ∧
    readArr s3c5.heap (readDict s3c5.heap eliteRef5).posRef
      ≠ readArr s2c5.heap (readDict s2c5.heap eliteRef5).posRef := by
  exact ⟨by decide, by decide, by decide, by decide⟩

/-- C5 witness: population 5, elite 2, crossover rate 1 with an all-zero
uniform stream (crossover-only refills) on the evaluated initial
population. -/
theorem c5_witness :
    s3c5w.population.take cfgC5w.elite_size
      = (sortPop s2c5w.heap s2c5w.population).take cfgC5w.elite_size ∧
    (sortPop s2c5w.heap s2c5w.population).Perm s2c5w.population ∧
    List.Sorted (fun a b => keyE s2c5w.heap a ≤ keyE s2c5w.heap b)
      (sortPop s2c5w.heap s2c5w.population) ∧
    ∀ r ∈ (sortPop s2c5w.heap s2c5w.population).take cfgC5w.elite_size,
      readDict s3c5w.heap r = readDict s2c5w.heap r ∧
      readArr s3c5w.heap (readDict s2c5w.heap r).posRef
        = readArr s2c5w.heap (readDict s2c5w.heap r).posRef ∧
      readArr s3c5w.heap (readDict s2c5w.heap r).oriRef
        = readArr s2c5w.heap (readDict s2c5w.heap r).oriRef ∧
      readArr s3c5w.heap (readDict s2c5w.heap r).torsRef
        = readArr s2c5w.heap (readDict s2c5w.heap r).torsRef :=
  c5_elitism_crossover_only O0 cfgC5w s2c5w s3c5w
    (fun _ => show (0 : ℚ) < 1 by norm_num) (by decide) (by decide) (by decide)

/-- C3: the claim states that the global best is recorded as a deep copy,
so that subsequent mutation or crossover of population members leaves the
recorded best's arrays unchanged.  The source records
`best_individual = individual.copy()`, a shallow dict copy whose numpy
arrays alias the population member's, and `_mutate` perturbs a selected
parent's arrays with in-place `+=` through the same aliasing: in this
concrete run the recorded best dict is unchanged, yet the position array
it references has changed value across one reproduction step. -/
theorem c3_shallow_copy_corrupts_best :
    s2c3.best_individual.isSome ∧
    selectionCM O0 cfgC3 s2c3 = .ok s3c3 ∧
    s3c3.best_individual = s2c3.best_individual ∧
    readArr s3c3.heap bestRef3 ≠ readArr s2c3.heap bestRef3 := by
  exact ⟨by decide, by decide, by decide, by decide⟩

/-- C1 witness: at the unit axis (0,0,1) and angle 90 the function raises
the scalar-matmul error rather than returning the documented matrix. -/
theorem c1_witness :
    rotationMatrixAxisAngle P0 ⟨0, 0, 1⟩ 90 = .error .matmulScalar ∧
    rotationMatrixAxisAngle P0 ⟨0, 0, 1⟩ 90
      ≠ .ok (rodriguesSpec P0 ⟨0, 0, 1⟩ 90) :=
  c1_rotation_matrix_always_raises P0 ⟨0, 0, 1⟩ 90

/-- C3 witness: the corrupted-read conjunct of the concrete run, extracted
by applying the theorem. -/
theorem c3_witness :
    readArr s3c3.heap bestRef3 ≠ readArr s2c3.heap bestRef3 :=
  c3_shallow_copy_corrupts_best.2.2.2
